import Mathlib

/-!
# A shallow embedding of the pyrona region / behavior runtime

This file embeds the data model and the operations of `src/pyrona/core.py`
and `src/pyrona/when.py` as executable Lean definitions, and proves (or
refutes) the frozen claims about them.

Modelling conventions:
* Python objects are modelled by the inductive `PVal`; mutable objects are
  inlined by value (the object graphs manipulated by the claims are trees).
* The global state (`_regions`, `_region_aliases`, `_counter` from core.py)
  is the structure `St`.  The region registry is keyed by `PyKey` because
  the Python dict `_regions` is indexed with *int* keys at insertion but
  probed with a *string* key by the name-collision check.
* Thread identities (`threading.get_ident()`) are naturals passed
  explicitly as `tid`.
* Recursions that walk the mutable region graph (`owns`, `root_region`,
  alias chains, `capture`, `freeze`) are given explicit fuel; the Python
  original recurses unboundedly (and genuinely diverges on cyclic states).
* `random.choices` (`_random_word`) is modelled by the deterministic
  `randomWord`; no claim depends on the sampled letters.
-/

namespace Pyrona

/-- Embedding of the Python values the runtime distinguishes.
Mirrors the `isinstance` discriminations in core.py. -/
inductive PVal where
  /-- `None` -/
  | vnone : PVal
  /-- `bool` -/
  | vbool (b : Bool) : PVal
  /-- `int` -/
  | vint (n : Int) : PVal
  /-- `str` -/
  | vstr (s : String) : PVal
  /-- `bytes` -/
  | vbytes (bs : List Nat) : PVal
  /-- `range` -/
  | vrange (lo hi : Int) : PVal
  /-- `bytearray` -/
  | vbytearray (bs : List Nat) : PVal
  /-- `list` -/
  | vlist (xs : List PVal) : PVal
  /-- `tuple` -/
  | vtuple (xs : List PVal) : PVal
  /-- `set` (modelled as its list of elements) -/
  | vset (xs : List PVal) : PVal
  /-- `frozenset` -/
  | vfrozenset (xs : List PVal) : PVal
  /-- `dict` with string keys, in insertion order -/
  | vdict (kvs : List (String × PVal)) : PVal
  /-- a `namedtuple` instance (class name, fields in declaration order);
  produced by the freezer -/
  | vnamed (cls : String) (fields : List (String × PVal)) : PVal
  /-- a plain mutable object: class name, its `__region__` attribute
  (`none` when unset), and its `__dict__` -/
  | vobj (cls : String) (regionF : Option Nat) (fields : List (String × PVal)) : PVal
  /-- a `Region` handle, by identity -/
  | vregion (rid : Nat) : PVal
  /-- a `RegionIsolatedObject`: its `__region__` and its `__inner__` -/
  | vwrapped (rid : Nat) (inner : PVal) : PVal

mutual

/-- `is_imm` from core.py: immutable builtins, and immutable sequences
(`frozenset`, `tuple` — a `namedtuple` instance is a tuple whose iteration
yields its field values) all of whose elements are immutable. -/
def is_imm : PVal → Bool
  | .vnone => true
  | .vbool _ => true
  | .vint _ => true
  | .vstr _ => true
  | .vbytes _ => true
  | .vrange _ _ => true
  | .vtuple xs => is_immList xs
  | .vfrozenset xs => is_immList xs
  | .vnamed _ fields => is_immFields fields
  | _ => false

/-- `all(is_imm(y) for y in x)` over a list of elements. -/
def is_immList : List PVal → Bool
  | [] => true
  | x :: xs => is_imm x && is_immList xs

/-- `all(is_imm(y) for y in x)` over named fields (iteration of a
namedtuple yields the field values). -/
def is_immFields : List (String × PVal) → Bool
  | [] => true
  | (_, v) :: fs => is_imm v && is_immFields fs

end

/-- The errors the runtime raises, one constructor per distinct raise site
/ message in core.py and when.py. -/
inductive Err where
  /-- `RegionIsolationError("Region is closed")` — the `isolated` decorator -/
  | regionIsClosed : Err
  /-- `RegionIsolationError("Invalid region assignment")` -/
  | invalidRegionAssignment : Err
  /-- `RegionIsolationError("Invalid assignment")` -/
  | invalidAssignment : Err
  /-- `RegionIsolationError("Region is not free")` — `add_child`, `merge` -/
  | regionNotFree : Err
  /-- `RegionIsolationError("Object is already in another region")` -/
  | alreadyInAnotherRegion : Err
  /-- `RegionIsolationError("Region already attached to a different region graph")` -/
  | alreadyAttached : Err
  /-- `RegionIsolationError("Region is not a child of this region")` -/
  | notAChild : Err
  /-- `RegionIsolationError("Region is not private")` — `__enter__` on a shared region -/
  | regionNotPrivate : Err
  /-- `RegionIsolationError("Region cannot be opened")` -/
  | cannotBeOpened : Err
  /-- `RegionIsolationError("Region is not open")` — `merge` on a closed region -/
  | regionNotOpen : Err
  /-- `RegionIsolationError("Region must be open")` — `detach_all` -/
  | mustBeOpen : Err
  /-- `RegionIsolationError("Region must be shared")` — `detach_all` -/
  | mustBeShared : Err
  /-- `RegionIsolationError("Region is private.")` — the check inside `when_` -/
  | regionIsPrivate : Err
  /-- `FreezeException("Region must be closed")` -/
  | mustBeClosed : Err
  /-- `AttributeError("Region name must be unique ...")` -/
  | nameCollision : Err
  /-- a Python `AttributeError` for a missing attribute -/
  | attributeError (name : String) : Err
  /-- out of fuel: the Python original diverges past this point -/
  | fuelExhausted : Err
  /-- model artifact: a region identity not present in the registry was
  dereferenced (a dangling identity would be a Python `KeyError` /
  `NoneType` error; it cannot arise in the states used below) -/
  | missingRegion : Err
deriving DecidableEq, Repr

/-- A key of the Python dict `_regions`: regions are *inserted* under their
int identity, but `Region.__init__` probes membership with the region
*name*, a string. -/
inductive PyKey where
  | pint (n : Nat) : PyKey
  | pstr (s : String) : PyKey
deriving DecidableEq, Repr

/-- The per-`Region` instance attributes of core.py. -/
structure Reg where
  /-- `name` -/
  name : String
  /-- `is_shared_` -/
  sharedF : Bool
  /-- `is_open_`: `None` or the ident of the worker holding the region open -/
  openBy : Option Nat
  /-- `__region__`: identity of the parent region, `None` when free -/
  parentF : Option Nat
  /-- `children`: identities, in append order -/
  childrenF : List Nat
  /-- `alias`: forwarding target installed by `merge` -/
  aliasF : Option Nat
  /-- whether `make_shareable` has installed the `last`/`lock` attributes -/
  lockInit : Bool
  /-- `last`: identity of the tail request enqueued on this region -/
  lastReq : Option Nat
  /-- `root`: the `RegionIsolatedObject` wrapping the `Region.Root` instance -/
  root : PVal

/-- The process-wide state: `_regions`, `_region_aliases` and `_counter`
from core.py. -/
structure St where
  /-- `_regions` -/
  regs : List (PyKey × Reg)
  /-- `_region_aliases` -/
  aliases : List (Nat × Nat)
  /-- `_counter["value"]` -/
  counter : Nat

/-- First-match lookup in the registry's association list. -/
def findKey : List (PyKey × Reg) → PyKey → Option Reg
  | [], _ => none
  | (k, v) :: rest, key => if k == key then some v else findKey rest key

/-- Update the (first) entry under a key of the registry. -/
def updKey : List (PyKey × Reg) → PyKey → (Reg → Reg) → List (PyKey × Reg)
  | [], _, _ => []
  | (k, v) :: rest, key, f =>
    if k == key then (k, f v) :: rest else (k, v) :: updKey rest key f

/-- First-match lookup in the alias map. -/
def lookupNN : List (Nat × Nat) → Nat → Option Nat
  | [], _ => none
  | (k, v) :: rest, key => if k == key then some v else lookupNN rest key

/-- Replace the entry under a key of the alias map. -/
def updNN : List (Nat × Nat) → Nat → Nat → List (Nat × Nat)
  | [], _, _ => []
  | (k, v) :: rest, key, tgt =>
    if k == key then (k, tgt) :: rest else (k, v) :: updNN rest key tgt

/-- Look a region up by identity in the registry. -/
def St.find (st : St) (rid : Nat) : Option Reg :=
  findKey st.regs (PyKey.pint rid)

/-- Apply `f` to the region stored under identity `rid`. -/
def St.updateReg (st : St) (rid : Nat) (f : Reg → Reg) : St :=
  { st with regs := updKey st.regs (PyKey.pint rid) f }

/-- One alias-map lookup: `_region_aliases.get`. -/
def St.aliasLookup (st : St) (rid : Nat) : Option Nat :=
  lookupNN st.aliases rid

/-- Resolve an identity through the alias chain, as the
`while identity in _region_aliases` loop of `region()` does (that loop also
path-compresses; the returned region is the same either way). -/
def resolveAlias (st : St) : Nat → Nat → Option Nat
  | 0, _ => none
  | fuel + 1, rid =>
    match st.aliasLookup rid with
    | none => some rid
    | some tgt => resolveAlias st fuel tgt

/-- `region(x)` for a raw `__region__` attribute value: resolve the alias
chain, then look the result up in the registry (`_regions.get`). -/
def regionOfId (st : St) (fuel : Nat) (ridOpt : Option Nat) : Option Nat :=
  match ridOpt with
  | none => none
  | some rid =>
    match resolveAlias st fuel rid with
    | none => none
    | some tgt => if (st.find tgt).isSome then some tgt else none

/-- The raw `__region__` attribute of a value, per `getattr(x, "__region__", None)`:
wrappers and captured plain objects carry one, a `Region` handle's is its
parent, every other value reports `None`. -/
def rawRegionField (st : St) : PVal → Option Nat
  | .vwrapped rid _ => some rid
  | .vobj _ rf _ => rf
  | .vregion rid => (st.find rid).bind (·.parentF)
  | _ => none

/-- `region(x)` from core.py for a value. -/
def regionOfVal (st : St) (fuel : Nat) (v : PVal) : Option Nat :=
  regionOfId st fuel (rawRegionField st v)

/-- Follow the `alias` *attribute* chain (`if self.alias: ...` delegation)
to its end. -/
def aliasAttrEnd (st : St) : Nat → Nat → Except Err Nat
  | 0, _ => .error .fuelExhausted
  | fuel + 1, rid =>
    match st.find rid with
    | none => .error .missingRegion
    | some r =>
      match r.aliasF with
      | none => .ok rid
      | some a => aliasAttrEnd st fuel a

/-- `Region.is_shared`: delegate through `alias`, then read `is_shared_`. -/
def isSharedP (st : St) : Nat → Nat → Except Err Bool
  | 0, _ => .error .fuelExhausted
  | fuel + 1, rid =>
    match st.find rid with
    | none => .error .missingRegion
    | some r =>
      match r.aliasF with
      | some a => isSharedP st fuel a
      | none => .ok r.sharedF

/-- `Region.is_private`: delegate through `alias`, then `not is_shared_`. -/
def isPrivateP (st : St) : Nat → Nat → Except Err Bool
  | 0, _ => .error .fuelExhausted
  | fuel + 1, rid =>
    match st.find rid with
    | none => .error .missingRegion
    | some r =>
      match r.aliasF with
      | some a => isPrivateP st fuel a
      | none => .ok (!r.sharedF)

/-- `Region.is_open`: delegate through `alias`, then
`get_ident() == self.is_open_`. -/
def isOpenP (st : St) (tid : Nat) : Nat → Nat → Except Err Bool
  | 0, _ => .error .fuelExhausted
  | fuel + 1, rid =>
    match st.find rid with
    | none => .error .missingRegion
    | some r =>
      match r.aliasF with
      | some a => isOpenP st tid fuel a
      | none => .ok (r.openBy == some tid)

/-- `Region.is_closed`: `get_ident() != self.is_open_` in the plain case.
The alias branch of the source reads the misspelled attribute
`self.alias.is_close`; that falls through `Region.__getattr__` along the
alias chain to the final target's isolated root wrapper, which raises
"Region is closed" when that target is closed for the caller and an
`AttributeError` otherwise — the aliased branch never returns a boolean. -/
def isClosedP (st : St) (tid : Nat) : Nat → Nat → Except Err Bool
  | 0, _ => .error .fuelExhausted
  | fuel + 1, rid =>
    match st.find rid with
    | none => .error .missingRegion
    | some r =>
      match r.aliasF with
      | some a => do
        let tgt ← aliasAttrEnd st fuel a
        match st.find tgt with
        | none => .error .missingRegion
        | some q =>
          match q.root with
          | .vwrapped wrid _ =>
            match regionOfId st fuel (some wrid) with
            | none => .error .regionIsClosed
            | some canon =>
              match st.find canon with
              | none => .error .missingRegion
              | some c =>
                if c.openBy == some tid then .error (.attributeError "is_close")
                else .error .regionIsClosed
          | _ => .error .missingRegion
      | none => .ok (r.openBy != some tid)

/-- `Region.is_free`: `region(self) is None`. -/
def isFreeP (st : St) (fuel : Nat) (rid : Nat) : Bool :=
  (regionOfId st fuel ((st.find rid).bind (·.parentF))).isNone

/-- The `while not r.is_free: r = region(r)` loop of `root_region`. -/
def rootRegionLoop (st : St) : Nat → Nat → Except Err Nat
  | 0, _ => .error .fuelExhausted
  | fuel + 1, rid =>
    match regionOfId st (fuel + 1) ((st.find rid).bind (·.parentF)) with
    | none => .ok rid
    | some p => rootRegionLoop st fuel p

/-- `root_region(x)`: the root of the containment tree holding `x`. -/
def rootRegionP (st : St) (fuel : Nat) (v : PVal) : Except Err (Option Nat) :=
  match regionOfVal st fuel v with
  | none => .ok none
  | some r => (rootRegionLoop st fuel r).map some

/-- `Region.owns`: whether `other` is a descendant through `children`.
The source's alias branch makes a recursive call whose result is
discarded (the unreturned call flagged in the repository); since `owns`
is pure, that call has no observable effect and is omitted here. -/
def ownsP (st : St) : Nat → Nat → Nat → Bool
  | 0, _, _ => false
  | fuel + 1, selfRid, otherRid =>
    match st.find selfRid with
    | none => false
    | some r =>
      r.childrenF.any (fun c => c == otherRid || ownsP st fuel c otherRid)

/-- `Region.make_shareable`: recurse into the alias (the source does not
return early there), then set `last = None`, a fresh `lock`, and
`is_shared_ = True` on this region. -/
def make_shareable (st : St) : Nat → Nat → St
  | 0, _ => st
  | fuel + 1, rid =>
    let st' :=
      match (st.find rid).bind (·.aliasF) with
      | some a => make_shareable st fuel a
      | none => st
    st'.updateReg rid (fun r => { r with lastReq := none, lockInit := true, sharedF := true })

/-- `Region.add_child`: recurse into the alias (the source does not return
early there), check `other.is_free`, append to `children`, and point
`other.__region__` at this region's identity. -/
def add_child (st : St) : Nat → Nat → Nat → Except Err St
  | 0, _, _ => .error .fuelExhausted
  | fuel + 1, selfRid, otherRid => do
    let st' ←
      match (st.find selfRid).bind (·.aliasF) with
      | some a => add_child st fuel a otherRid
      | none => pure st
    if isFreeP st' fuel otherRid then
      pure (((st'.updateReg selfRid
          (fun r => { r with childrenF := r.childrenF ++ [otherRid] })).updateReg otherRid
          (fun r => { r with parentF := some selfRid })))
    else
      .error .regionNotFree

/-- The fresh root installed by `Region.__init__` (and by `freeze` /
`detach_all`): a `RegionIsolatedObject` over an empty `Region.Root`
whose `__region__` was set by the constructor's capture. -/
def freshRoot (rid : Nat) : PVal :=
  .vwrapped rid (.vobj "Root" (some rid) [])

/-- Stand-in for `str(uuid.uuid4())`: a fresh auto-generated name (the
source draws a random UUID; freshness is all that is used). -/
def uuidName (k : Nat) : String :=
  "uuid-" ++ toString k

/-- The registry record `Region.__init__` creates for name `nm` and
identity `d`: closed, private, free, with a fresh root. -/
def mkReg (nm : String) (d : Nat) : Reg :=
  { name := nm, sharedF := false, openBy := none, parentF := none,
    childrenF := [], aliasF := none, lockInit := false, lastReq := none,
    root := freshRoot d }

/-- `Region.__init__`: auto-name if absent, probe the registry for the
name — the probe `name in _regions` asks whether the *string* name is
among the *int* identity keys — then register under the next identity,
closed, private and free, with a fresh root. -/
def regionNew (st : St) (nameOpt : Option String) : Except Err (Nat × St) :=
  let name := match nameOpt with
    | some n => n
    | none => uuidName st.counter
  if st.regs.any (fun kv => kv.1 == PyKey.pstr name) then
    .error .nameCollision
  else
    .ok (st.counter, { st with
      regs := st.regs ++ [(PyKey.pint st.counter, mkReg name st.counter)],
      counter := st.counter + 1 })

/-- `Region._open`: record the caller as the opener. -/
def openReg (st : St) (tid : Nat) (rid : Nat) : St :=
  st.updateReg rid (fun r => { r with openBy := some tid })

/-- `Region._close`: clear the opener. -/
def closeReg (st : St) (rid : Nat) : St :=
  st.updateReg rid (fun r => { r with openBy := none })

/-- `_is_private`: names starting with an underscore
(`name.startswith("_")`, checked on the first character). -/
def isPrivateName (n : String) : Bool :=
  match n.data with
  | [] => false
  | c :: _ => c == '_'

/-- Lexicographic code-point comparison of two names, as Python's string
`<` orders them. -/
def charListLt : List Char → List Char → Bool
  | [], [] => false
  | [], _ :: _ => true
  | _ :: _, [] => false
  | a :: as, b :: bs =>
    if a < b then true
    else if b < a then false
    else charListLt as bs

/-- `a < b` on attribute names. -/
def nameLt (a b : String) : Bool :=
  charListLt a.data b.data

/-- Stand-in for `_random_word(n)`: the source draws `n` random lowercase
letters; no claim depends on which letters are drawn. -/
def randomWord (n : Nat) : String :=
  String.mk (List.replicate n 'z')

/-- Argument of the combined `_capture` / freezer recursions: one object,
the elements of a sequence, the values of a dict or namedtuple, or the
attributes of a plain object's `__dict__`. -/
inductive WalkArg where
  | one (v : PVal) : WalkArg
  | seq (xs : List PVal) : WalkArg
  | vals (kvs : List (String × PVal)) : WalkArg
  | attrs (kvs : List (String × PVal)) : WalkArg

/-- Result of the combined recursions, mirroring `WalkArg` (`attrs` also
yields `vals`). -/
inductive WalkRes where
  | one (v : PVal) : WalkRes
  | seq (xs : List PVal) : WalkRes
  | vals (kvs : List (String × PVal)) : WalkRes

/-- `freeze_value`'s first step: unwrap a `RegionIsolatedObject` to its
inner object, leave every other value as is. -/
def stripWrapper : PVal → PVal
  | .vwrapped _ inner => inner
  | v => v

/-- Project a `WalkRes` expected to be a single value (the other shapes
cannot occur: the recursion maps each argument shape to its own result
shape). -/
def expectOne (r : WalkRes × St) : Except Err (PVal × St) :=
  match r with
  | (.one v, st) => .ok (v, st)
  | _ => .error .missingRegion

/-- Project a `WalkRes` expected to be a sequence. -/
def expectSeq (r : WalkRes × St) : Except Err (List PVal × St) :=
  match r with
  | (.seq xs, st) => .ok (xs, st)
  | _ => .error .missingRegion

/-- Project a `WalkRes` expected to be a field list. -/
def expectVals (r : WalkRes × St) : Except Err (List (String × PVal) × St) :=
  match r with
  | (.vals kvs, st) => .ok (kvs, st)
  | _ => .error .missingRegion

/-- `Region._capture`: absorb the argument into the region `selfRid`,
following the arms of the source in order; the `seq` / `vals` / `attrs`
shapes are the source's loops over sequence elements, dict and namedtuple
values, and `__dict__` attributes.  Returns the (mutated) argument
together with the new state.  The recursion is structural on the fuel. -/
def captureC : Nat → St → Nat → WalkArg → Bool → Except Err (WalkRes × St)
  | 0, _, _, _, _ => .error .fuelExhausted
  | f + 1, st, selfRid, .one obj, overwrite => do
    -- `if self.alias: self.alias._capture(obj, overwrite)` — and fall through
    let (obj, st) ←
      match (st.find selfRid).bind (·.aliasF) with
      | some a => do
        let (obj, st) ← expectOne (← captureC f st a (.one obj) overwrite)
        pure (obj, st)
      | none => pure (obj, st)
    if is_imm obj || regionOfVal st f obj == some selfRid then
      pure (.one obj, st)
    else if (regionOfVal st f obj).isSome && !overwrite then
      .error .alreadyInAnotherRegion
    else
      match obj with
      | .vwrapped _ inner => do
        -- `obj.move(self)`: repoint the wrapper, recapture the inner
        let (inner, st) ← expectOne (← captureC f st selfRid (.one inner) true)
        pure (.one (.vwrapped selfRid inner), st)
      | .vlist xs => do
        let (xs, st) ← expectSeq (← captureC f st selfRid (.seq xs) overwrite)
        pure (.one (.vlist xs), st)
      | .vtuple xs => do
        let (xs, st) ← expectSeq (← captureC f st selfRid (.seq xs) overwrite)
        pure (.one (.vtuple xs), st)
      | .vset xs => do
        let (xs, st) ← expectSeq (← captureC f st selfRid (.seq xs) overwrite)
        pure (.one (.vset xs), st)
      | .vnamed cls fields => do
        -- a namedtuple instance is a tuple; iteration yields its values
        let (fields, st) ← expectVals (← captureC f st selfRid (.vals fields) overwrite)
        pure (.one (.vnamed cls fields), st)
      | .vdict kvs => do
        let (kvs, st) ← expectVals (← captureC f st selfRid (.vals kvs) overwrite)
        pure (.one (.vdict kvs), st)
      | .vregion rid =>
        if isFreeP st f rid then do
          let st ← add_child st f selfRid rid
          pure (.one (.vregion rid), st)
        else if !(ownsP st f selfRid rid) then
          .error .alreadyAttached
        else
          pure (.one (.vregion rid), st)
      | .vobj cls _ fields =>
        -- `object.__setattr__(obj, "__region__", identity(self))`, bail if
        -- the write is not visible as membership of `self`, then recurse
        -- into the non-private attributes
        let obj' := PVal.vobj cls (some selfRid) fields
        if regionOfVal st f obj' != some selfRid then
          pure (.one obj', st)
        else do
          let (fields, st) ← expectVals (← captureC f st selfRid (.attrs fields) overwrite)
          pure (.one (.vobj cls (some selfRid) fields), st)
      | _ =>
        -- remaining mutable shapes (e.g. `bytearray`) reach the final arm,
        -- where `object.__setattr__` on an instance without a `__dict__`
        -- raises `AttributeError`
        .error (.attributeError "__region__")
  | _ + 1, st, _, .seq [], _ => pure (.seq [], st)
  | f + 1, st, selfRid, .seq (x :: rest), overwrite => do
    let (x, st) ← expectOne (← captureC f st selfRid (.one x) overwrite)
    let (rest, st) ← expectSeq (← captureC f st selfRid (.seq rest) overwrite)
    pure (.seq (x :: rest), st)
  | _ + 1, st, _, .vals [], _ => pure (.vals [], st)
  | f + 1, st, selfRid, .vals ((k, v) :: rest), overwrite => do
    let (v, st) ← expectOne (← captureC f st selfRid (.one v) overwrite)
    let (rest, st) ← expectVals (← captureC f st selfRid (.vals rest) overwrite)
    pure (.vals ((k, v) :: rest), st)
  | _ + 1, st, _, .attrs [], _ => pure (.vals [], st)
  | f + 1, st, selfRid, .attrs ((k, v) :: rest), overwrite =>
    -- skip private attribute names (there are no bound methods in the model)
    if isPrivateName k then do
      let (rest, st) ← expectVals (← captureC f st selfRid (.attrs rest) overwrite)
      pure (.vals ((k, v) :: rest), st)
    else do
      let (v, st) ← expectOne (← captureC f st selfRid (.one v) overwrite)
      let (rest, st) ← expectVals (← captureC f st selfRid (.attrs rest) overwrite)
      pure (.vals ((k, v) :: rest), st)

/-- `Region._capture` on a single object (entry point used by the other
operations). -/
def capture (st : St) (fuel : Nat) (selfRid : Nat) (obj : PVal) (overwrite : Bool) :
    Except Err (PVal × St) := do
  expectOne (← captureC fuel st selfRid (.one obj) overwrite)

/-- `RegionIsolatedObject.can_assign`: the four-way disjunction, with the
source's evaluation order (`r.is_shared or region(self) == r or
region(self).owns(r) or (r.is_free and root_region(self) != r)`). -/
def can_assign (st : St) (fuel : Nat) (selfObj : PVal) (rid : Nat) : Except Err Bool := do
  let sh ← isSharedP st fuel rid
  if sh then
    pure true
  else
    match regionOfVal st fuel selfObj with
    | none => .error .missingRegion
    | some sr =>
      if sr == rid then
        pure true
      else if ownsP st fuel sr rid then
        pure true
      else if isFreeP st fuel rid then do
        let rr ← rootRegionP st fuel selfObj
        pure (rr != some rid)
      else
        pure false

/-- `len(set(l))`: the number of distinct elements of a list (each element
counted at its last occurrence). -/
def distinctLen : List (Option Nat) → Nat
  | [] => 0
  | x :: xs => (if xs.contains x then 0 else 1) + distinctLen xs

/-- Replace (or, for a new key, append) an entry of a `__dict__`. -/
def setField : List (String × PVal) → String → PVal → List (String × PVal)
  | [], n, v => [(n, v)]
  | (k, w) :: rest, n, v =>
    if k == n then (k, v) :: rest else (k, w) :: setField rest n v

/-- Look an entry of a `__dict__` up. -/
def getField (kvs : List (String × PVal)) (n : String) : Option PVal :=
  (kvs.find? (fun kv => kv.1 == n)).map (·.2)

/-- The `isolated` decorator: raise "Region is closed" when
`region(self).is_closed` holds for the calling thread. -/
def isolatedCheck (st : St) (fuel tid : Nat) (selfObj : PVal) : Except Err Unit := do
  match regionOfVal st fuel selfObj with
  | none => .error .missingRegion
  | some sr =>
    let closed ← isClosedP st tid fuel sr
    if closed then .error .regionIsClosed else pure ()

/-- `RegionIsolatedObject.__setattr__`: the isolated check, then either the
region-assignment rules (`can_assign` / `add_child`) or the cross-region
check plus wrapping, and finally the write to the inner `__dict__`.
Returns the updated wrapper. -/
def rioSetattr (st : St) (fuel tid : Nat) (selfObj : PVal) (name : String) (value : PVal) :
    Except Err (PVal × St) := do
  isolatedCheck st fuel tid selfObj
  match selfObj with
  | .vwrapped wrid inner => do
    let (value, st) ←
      match value with
      | .vregion vr => do
        let ok ← can_assign st fuel selfObj vr
        if ok then
          match regionOfVal st fuel selfObj with
          | none => .error .missingRegion
          | some sr => do
            let st ← add_child st fuel sr vr
            pure (PVal.vregion vr, st)
        else
          .error .invalidRegionAssignment
      | _ => do
        -- `regions(self, value).union([None, region(self)])`
        let rset := [regionOfVal st fuel selfObj, regionOfVal st fuel value,
          none, regionOfVal st fuel selfObj]
        if distinctLen rset > 2 then
          .error .invalidAssignment
        else
          if !is_imm value && !(match value with | .vwrapped _ _ => true | _ => false) then
            match regionOfVal st fuel selfObj with
            | none => .error .missingRegion
            | some sr => do
              -- `RegionIsolatedObject(region(self), value)` captures `value`
              let (cap, st) ← capture st fuel sr value false
              pure (PVal.vwrapped sr cap, st)
          else
            pure (value, st)
    match inner with
    | .vobj cls rf fields =>
      pure (.vwrapped wrid (.vobj cls rf (setField fields name value)), st)
    | _ => .error (.attributeError name)
  | _ => .error (.attributeError name)

/-- `RegionIsolatedObject.__getattr__`: the isolated check, the inner
lookup, pass-through for immutable / `Region` / wrapped values, and the
wrap-and-memoize path for raw mutable values.  Returns the value, the
(possibly memoized) wrapper, and the new state. -/
def rioGetattr (st : St) (fuel tid : Nat) (selfObj : PVal) (name : String) :
    Except Err (PVal × PVal × St) := do
  isolatedCheck st fuel tid selfObj
  match selfObj with
  | .vwrapped wrid inner =>
    match inner with
    | .vobj cls rf fields =>
      match getField fields name with
      | none => .error (.attributeError name)
      | some value =>
        if is_imm value ||
            (match value with | .vregion _ => true | .vwrapped _ _ => true | _ => false) then
          pure (value, selfObj, st)
        else
          match regionOfVal st fuel selfObj with
          | none => .error .missingRegion
          | some sr => do
            let (cap, st) ← capture st fuel sr value false
            let w := PVal.vwrapped sr cap
            pure (w, .vwrapped wrid (.vobj cls rf (setField fields name w)), st)
    | _ => .error (.attributeError name)
  | _ => .error (.attributeError name)

/-- `Region.__setattr__`: delegate into the alias first (the source does
not return early there), then dispatch the write to this region's root
wrapper. -/
def regionSetattr (st : St) : Nat → Nat → Nat → String → PVal → Except Err St
  | 0, _, _, _, _ => .error .fuelExhausted
  | fuel + 1, tid, rid, name, value => do
    let st ←
      match (st.find rid).bind (·.aliasF) with
      | some a => regionSetattr st fuel tid a name value
      | none => pure st
    match st.find rid with
    | none => .error .missingRegion
    | some r => do
      let (root, st) ← rioSetattr st fuel tid r.root name value
      pure (st.updateReg rid (fun q => { q with root := root }))

/-- `Region.__getattr__`: forward along the alias, then read from this
region's root wrapper (memoization writes back into the root). -/
def regionGetattr (st : St) : Nat → Nat → Nat → String → Except Err (PVal × St)
  | 0, _, _, _ => .error .fuelExhausted
  | fuel + 1, tid, rid, name =>
    match st.find rid with
    | none => .error .missingRegion
    | some r =>
      match r.aliasF with
      | some a => regionGetattr st fuel tid a name
      | none => do
        let (value, root, st) ← rioGetattr st fuel tid r.root name
        pure (value, st.updateReg rid (fun q => { q with root := root }))

/-- Write an entry of `_region_aliases`. -/
def St.setAlias (st : St) (src tgt : Nat) : St :=
  if (st.aliasLookup src).isSome then
    { st with aliases := updNN st.aliases src tgt }
  else
    { st with aliases := st.aliases ++ [(src, tgt)] }

/-- `Region.merge`: forward along the alias (this branch does return),
check open and free, record the alias in `_region_aliases`, move the other
region's root into this one (`other.root.move(self)`), store the moved
wrapper under a fresh random attribute name of this region's root, and
install `other.alias = self`.  Returns the moved wrapper. -/
def merge (st : St) : Nat → Nat → Nat → Nat → Except Err (PVal × St)
  | 0, _, _, _ => .error .fuelExhausted
  | fuel + 1, tid, selfRid, otherRid =>
    match st.find selfRid with
    | none => .error .missingRegion
    | some r =>
      match r.aliasF with
      | some a => merge st fuel tid a otherRid
      | none => do
        let closed ← isClosedP st tid fuel selfRid
        if closed then
          .error .regionNotOpen
        else if !(isFreeP st fuel selfRid) then
          .error .regionNotFree
        else do
          let st := st.setAlias otherRid selfRid
          match (st.find otherRid).map (·.root) with
          | some (PVal.vwrapped _ inner) => do
            -- `merged = other.root.move(self)`
            let (inner, st) ← capture st fuel selfRid inner true
            let merged := PVal.vwrapped selfRid inner
            let st := st.updateReg otherRid (fun q => { q with root := merged })
            -- `setattr(self.root, _random_word(8), merged)`
            match st.find selfRid with
            | none => .error .missingRegion
            | some r' => do
              let (root, st) ← rioSetattr st fuel tid r'.root (randomWord 8) merged
              let st := st.updateReg selfRid (fun q => { q with root := root })
              -- `object.__setattr__(other, "alias", self)`
              let st := st.updateReg otherRid (fun q => { q with aliasF := some selfRid })
              pure (merged, st)
          | _ => .error .missingRegion

/-- `Region.detach_all`: check open and shared, create a fresh private
region, move this region's root into it, and install a fresh empty root
here.  Returns the new region's identity. -/
def detach_all (st : St) (fuel tid : Nat) (selfRid : Nat) (nameOpt : Option String) :
    Except Err (Nat × St) := do
  let closed ← isClosedP st tid fuel selfRid
  if closed then
    .error .mustBeOpen
  else do
    let priv ← isPrivateP st fuel selfRid
    if priv then
      .error .mustBeShared
    else do
      let (rid, st) ← regionNew st nameOpt
      match (st.find selfRid).map (·.root) with
      | some (PVal.vwrapped _ inner) => do
        -- `root = self.root.move(r)`
        let (inner, st) ← capture st fuel rid inner true
        let moved := PVal.vwrapped rid inner
        let st := st.updateReg rid (fun q => { q with root := moved })
        let st := st.updateReg selfRid (fun q => { q with root := freshRoot selfRid })
        pure (rid, st)
      | _ => .error .missingRegion

/-- Stable insertion into a name-sorted association list
(`inspect.getmembers` returns members sorted by name). -/
def insertByName (kv : String × PVal) : List (String × PVal) → List (String × PVal)
  | [] => [kv]
  | hd :: tl =>
    if nameLt kv.1 hd.1 then kv :: hd :: tl else hd :: insertByName kv tl

/-- Sort a `__dict__` by attribute name, as `inspect.getmembers` does. -/
def sortByName : List (String × PVal) → List (String × PVal)
  | [] => []
  | kv :: rest => insertByName kv (sortByName rest)

/-- `Freezer.freeze_value` (shape `one`), the element loops of
`freeze_list` / `freeze_set` / `freeze_tuple` (shape `seq`) and of
`freeze_object` over the sorted members (shape `vals`), with
`Region.freeze` inlined at the `vregion` arm (the source's
`value.freeze()`).  The recursion is structural on the fuel. -/
def freezeC : Nat → Nat → St → WalkArg → Except Err (WalkRes × St)
  | 0, _, _, _ => .error .fuelExhausted
  | f + 1, tid, st, .one v0 =>
    -- unwrap an isolated wrapper, pass immutable values through, then
    -- dispatch on the runtime type in the source's order
    let v := stripWrapper v0
    if is_imm v then
      pure (.one v, st)
    else
      match v with
      | .vlist xs => do
        let (xs, st) ← expectSeq (← freezeC f tid st (.seq xs))
        pure (.one (.vtuple xs), st)
      | .vbytearray bs => pure (.one (.vbytes bs), st)
      | .vset xs => do
        let (xs, st) ← expectSeq (← freezeC f tid st (.seq xs))
        pure (.one (.vfrozenset xs), st)
      | .vdict kvs =>
        -- `Freezer.freeze_dict`: builds the namedtuple from the *raw*
        -- values — unlike the list/set/tuple arms it never applies
        -- `freeze_value` to them
        let pfx := randomWord 4
        pure (.one (.vnamed "FrozenDict"
          ((kvs.map (fun kv => (pfx ++ kv.1, kv.2))) ++ [("prefix", .vstr pfx)])), st)
      | .vtuple xs => do
        let (xs, st) ← expectSeq (← freezeC f tid st (.seq xs))
        pure (.one (.vtuple xs), st)
      | .vnamed _ fields => do
        -- a namedtuple instance is a tuple; `freeze_tuple` over its values
        let (xs, st) ← expectSeq (← freezeC f tid st (.seq (fields.map (·.2))))
        pure (.one (.vtuple xs), st)
      | .vregion rid => do
        -- `Region.freeze`: raise unless the region is closed *for the
        -- calling thread*, `freeze_object` the root's inner object, then
        -- install a fresh empty root and clear `__region__`
        let opened ← isOpenP st tid (f + 1) rid
        if opened then
          .error .mustBeClosed
        else
          match st.find rid with
          | none => .error .missingRegion
          | some r =>
            match r.root with
            | .vwrapped _ (.vobj cls _ fields) => do
              let data := sortByName (fields.filter (fun kv => !isPrivateName kv.1))
              let (fdata, st) ← expectVals (← freezeC f tid st (.vals data))
              let fname := if cls == "Root" then "FrozenRegion" else "Frozen" ++ cls
              let st := st.updateReg rid
                (fun q => { q with root := freshRoot rid, parentF := none })
              pure (.one (.vnamed fname fdata), st)
            | _ => .error (.attributeError "__inner__")
      | .vobj cls _ fields => do
        -- `Freezer.freeze_object`: the non-private members sorted by name
        -- (`inspect.getmembers`), data values frozen element-wise into a
        -- namedtuple (there are no bound methods in the model)
        let data := sortByName (fields.filter (fun kv => !isPrivateName kv.1))
        let (fdata, st) ← expectVals (← freezeC f tid st (.vals data))
        let fname := if cls == "Root" then "FrozenRegion" else "Frozen" ++ cls
        pure (.one (.vnamed fname fdata), st)
      | _ => .error (.attributeError "__dict__")
  | _ + 1, _, st, .seq [] => pure (.seq [], st)
  | f + 1, tid, st, .seq (x :: rest) => do
    let (x, st) ← expectOne (← freezeC f tid st (.one x))
    let (rest, st) ← expectSeq (← freezeC f tid st (.seq rest))
    pure (.seq (x :: rest), st)
  | _ + 1, _, st, .vals [] => pure (.vals [], st)
  | f + 1, tid, st, .vals ((k, v) :: rest) => do
    let (v, st) ← expectOne (← freezeC f tid st (.one v))
    let (rest, st) ← expectVals (← freezeC f tid st (.vals rest))
    pure (.vals ((k, v) :: rest), st)
  | _ + 1, _, _, .attrs _ => .error .missingRegion

/-- `Freezer.freeze_value` on a single value. -/
def freeze_value (st : St) (fuel tid : Nat) (v : PVal) : Except Err (PVal × St) := do
  expectOne (← freezeC fuel tid st (.one v))

/-- `Region.freeze` (the `vregion` arm of the combined recursion). -/
def regionFreeze (st : St) (fuel tid : Nat) (rid : Nat) : Except Err (PVal × St) := do
  expectOne (← freezeC fuel tid st (.one (.vregion rid)))

/-! ## The behavior scheduler fragment of when.py needed by the claims -/

/-- The state `_Behavior.__init__` builds: the per-cown requests (region
identities, in enqueue order) and the pending counter. -/
structure BehaviorB where
  /-- `self.requests`: one `_Request` per element of the *sorted* cown
  list — the source sorts but does not deduplicate -/
  requests : List Nat
  /-- `self.count`, initialized to `len(cowns) + 1` -/
  count : Nat
deriving DecidableEq, Repr

/-- Insertion into an ascending list of region identities (`_Cown.__lt__`
compares `Region.__lt__`, i.e. the identities). -/
def insertNat (x : Nat) : List Nat → List Nat
  | [] => [x]
  | y :: ys => if x < y then x :: y :: ys else y :: insertNat x ys

/-- `cowns.sort()`: ascending by region identity. -/
def sortNats : List Nat → List Nat
  | [] => []
  | x :: xs => insertNat x (sortNats xs)

/-- `_Behavior.__init__` over the cowns of the declared regions:
`count = len(cowns) + 1` and one request per sorted cown. -/
def behaviorInit (cowns : List Nat) : BehaviorB :=
  { requests := sortNats cowns, count := cowns.length + 1 }

/-- `_Cown.exchange`: swap the region's `last` with the new request under
`with self.region.lock`.  Entering that block first *reads the attribute
`lock`*; a region that never went through `make_shareable` has none, so
the lookup falls through `Region.__getattr__` to the isolated root
wrapper: it raises "Region is closed" when the region is closed for the
caller and `AttributeError("lock")` when the caller holds it open.
(Alias-forwarded scheduler fields never arise in the claims; a dangling
identity is a model artifact.) -/
def cownExchange (st : St) (tid : Nat) (rid : Nat) (req : Nat) :
    Except Err (Option Nat × St) :=
  match st.find rid with
  | none => .error .missingRegion
  | some r =>
    if r.aliasF.isSome then
      .error .missingRegion
    else if r.lockInit then
      .ok (r.lastReq, st.updateReg rid (fun q => { q with lastReq := some req }))
    else if r.openBy == some tid then
      .error (.attributeError "lock")
    else
      .error .regionIsClosed

/-- What phase 1 of the enqueue did on one cown. -/
inductive EnqueueOutcome where
  /-- `prev is None`: the region was idle, `behavior.resolve_one()` ran -/
  | resolvedIdle : EnqueueOutcome
  /-- a predecessor request was linked (`prev.set_next`) and phase 1 spun
  on `prev.scheduled` -/
  | linkedBehind (prev : Nat) : EnqueueOutcome
deriving DecidableEq, Repr

/-- `_Request.start_enqueue`: the tail swap, then either the immediate
resolve (idle region) or linking behind the predecessor. -/
def startEnqueue (st : St) (tid : Nat) (rid : Nat) (req : Nat) :
    Except Err (EnqueueOutcome × St) := do
  let (prev, st) ← cownExchange st tid rid req
  match prev with
  | none => pure (.resolvedIdle, st)
  | some p => pure (.linkedBehind p, st)

/-- Phase 1 of `_Behavior.schedule` over the request list, giving request
`i`, `i+1`, … their identities in order.  The first exception propagates
out of `schedule()` — and hence out of the `when` decorator — before any
later phase runs. -/
def phase1Loop (st : St) (tid : Nat) : List Nat → Nat → Except Err (List EnqueueOutcome × St)
  | [], _ => .ok ([], st)
  | r :: rest, i => do
    let (o, st) ← startEnqueue st tid r i
    let (os, st) ← phase1Loop st tid rest (i + 1)
    .ok (o :: os, st)

/-- The submission-time prefix of `when(r1, …, rn)`: build the behavior
and run phase 1 of the 2PL enqueue on each request.  Everything after
phase 1 (phase 2, the slack resolve, spawning the thunk) only runs when
phase 1 completes without raising. -/
def whenSubmitPhase1 (st : St) (tid : Nat) (rids : List Nat) :
    Except Err (List EnqueueOutcome × St) :=
  phase1Loop st tid (behaviorInit rids).requests 0

/-- The loop at the top of the thunk wrapper `when_` (the code that runs
*inside* the behavior once scheduled): open each region if it is shared,
else raise "Region is private." — this is where the must-be-shared check
of the source actually lives. -/
def whenBodyOpen (st : St) (fuel tid : Nat) : List Nat → Except Err St
  | [] => .ok st
  | r :: rest => do
    let sh ← isSharedP st fuel r
    if sh then
      whenBodyOpen (openReg st tid r) fuel tid rest
    else
      .error .regionIsPrivate

/-! ## Concrete states used by the claim theorems -/

/-- The initial runtime state: empty registry, no aliases, counter 0. -/
def st0 : St := { regs := [], aliases := [], counter := 0 }

/-- The single region created by `Region("r")` on a fresh runtime:
closed, private and free. -/
def r0closed : Reg :=
  { name := "r", sharedF := false, openBy := none, parentF := none,
    childrenF := [], aliasF := none, lockInit := false, lastReq := none,
    root := freshRoot 0 }

/-- The state after `Region("r")` on a fresh runtime. -/
def stR : St := { regs := [(.pint 0, r0closed)], aliases := [], counter := 1 }

/-- Extract the payload of a result known to be `ok` (the theorems always
pair such an extraction with an equation proving the result is `ok`). -/
def okOr (d : α) : Except Err α → α
  | .ok a => a
  | .error _ => d

/-- `stR` really is the state `Region("r")` builds. -/
theorem regionNew_stR : regionNew st0 (some "r") = .ok (0, stR) := rfl

/-- State after `with r: r.a = {"k": [1]}` — the dict is wrapped and its
contents captured. -/
def stC1a : St :=
  okOr st0 (regionSetattr (openReg stR 42 0) 9 42 0 "a"
    (.vdict [("k", .vlist [.vint 1])]))

/-- Result of `r.freeze()` (on thread 7, the region closed) on `stC1a`. -/
def frzC1 : PVal × St := okOr (.vnone, st0) (regionFreeze (closeReg stC1a 0) 9 7 0)

/-- **C1**: the claim promises `is_immutable(freeze(R)) = true` for every
closed region.  It fails on a region holding a dict with a mutable value:
`Freezer.freeze_dict` builds the `FrozenDict` namedtuple from the *raw*
dict values (unlike the list / set / tuple arms, it never applies
`freeze_value` to them), so `freeze` returns a value containing a live
mutable list and `is_imm` reports `false` — contradicting `freeze`'s own
docstring ("returns an immutable object") and `freeze_dict`'s ("freezes
all the values in a dictionary").  The rest of the claim does hold here:
the result mirrors the contents structurally and the region is left free
with a fresh empty root. -/
theorem c1_freeze_dict_breaks_deep_immutability :
    regionSetattr (openReg stR 42 0) 9 42 0 "a"
      (.vdict [("k", .vlist [.vint 1])]) = .ok stC1a ∧
    regionFreeze (closeReg stC1a 0) 9 7 0 = .ok frzC1 ∧
    is_imm frzC1.1 = false ∧
    frzC1.1 = .vnamed "FrozenRegion"
      [("a", .vnamed "FrozenDict"
        [("zzzzk", .vlist [.vint 1]), ("prefix", .vstr "zzzz")])] ∧
    (frzC1.2.find 0).map (·.parentF) = some none ∧
    (frzC1.2.find 0).map (·.root) = some (freshRoot 0) :=
  ⟨rfl, rfl, rfl, rfl, rfl, rfl⟩

/-- State after `with r: r.f = r` on the fresh free region. -/
def stC3 : St :=
  okOr st0 (regionSetattr (openReg stR 42 0) 9 42 0 "f" (.vregion 0))

/-- **C3**: the claim asserts the parent relation stays acyclic at every
reachable quiescent point, including after `R.f = R`.  On a free open
region the source accepts the self-assignment (`can_assign` case
`region(self) == r`) and `add_child` then makes the region its own child
and its own parent — a cycle of length one, after which `root_region` and
`_can_open` no longer terminate on it. -/
theorem c3_self_assignment_creates_parent_cycle :
    regionSetattr (openReg stR 42 0) 9 42 0 "f" (.vregion 0) = .ok stC3 ∧
    (stC3.find 0).map (·.parentF) = some (some 0) ∧
    (stC3.find 0).map (·.childrenF) = some [0] ∧
    isFreeP stC3 5 0 = false ∧
    rootRegionLoop stC3 9 0 = .error .fuelExhausted :=
  ⟨rfl, rfl, rfl, rfl, rfl⟩

/-- **C5**: the claim says the request list is deduplicated (one request
per distinct region) and the counter starts at distinct-count + 1.
`_Behavior.__init__` sorts the cown list but never deduplicates: a
behavior declaring region 5 twice gets *two* requests and `count = 3`
(the claimed values are one request and `count = 2`).  Sorting by
ascending identity itself does happen, as the second conjunct shows. -/
theorem c5_duplicate_cowns_are_not_collapsed :
    behaviorInit [5, 5] = { requests := [5, 5], count := 3 } ∧
    behaviorInit [7, 3] = { requests := [3, 7], count := 3 } :=
  ⟨rfl, rfl⟩

/-- State after the first `Region("dup")`. -/
def stC8a : St := okOr st0 ((regionNew st0 (some "dup")).map (·.2))

/-- State after the second `Region("dup")` — accepted, not rejected. -/
def stC8b : St := okOr st0 ((regionNew stC8a (some "dup")).map (·.2))

/-- **C8**: the claim says a reused region name raises the name-collision
error.  The probe `name in _regions` asks whether the *string* name is a
key of the registry — but `_regions` is keyed by *int* identities, so the
membership test is always false and the second `Region("dup")` is
accepted (two registered regions share the name).  The rest of the claim
does hold: identities are assigned monotonically (0 then 1) and the new
region starts closed, private and free. -/
theorem c8_duplicate_region_name_is_not_rejected :
    regionNew st0 (some "dup") = .ok (0, stC8a) ∧
    regionNew stC8a (some "dup") = .ok (1, stC8b) ∧
    (stC8b.find 0).map (·.name) = some "dup" ∧
    (stC8b.find 1).map (·.name) = some "dup" ∧
    (stC8b.find 1).map (fun r => (r.openBy, r.sharedF, r.parentF)) =
      some (none, false, none) :=
  ⟨rfl, rfl, rfl, rfl, rfl⟩

/-- **C9** (counterexample): the claim says submitting a behavior over a
private region raises the *region-must-be-shared* error.  Submission in
fact dies earlier, inside `_Cown.exchange`: the private region has no
`lock` attribute (only `make_shareable` installs one), the lookup falls
through `Region.__getattr__` to the isolated root wrapper, and the error
surfaced synchronously at the submission site is "Region is closed" —
not "Region is private." (the message of the must-be-shared check inside
the thunk wrapper, which never runs). -/
theorem c9_private_submission_raises_region_closed :
    whenSubmitPhase1 stR 42 [0] = .error .regionIsClosed ∧
    whenSubmitPhase1 stR 42 [0] ≠ .error .regionIsPrivate ∧
    whenSubmitPhase1 stR 42 [0] ≠ .error .mustBeShared := by
  have h0 : whenSubmitPhase1 stR 42 [0] = .error .regionIsClosed := rfl
  refine ⟨h0, fun h => ?_, fun h => ?_⟩ <;> rw [h0] at h <;> simp at h

/-- A reachable state with r2 (identity 2) shared and owned by r1
(identity 1), and r0 (identity 0) open by worker 42. -/
def stC2a : St :=
  okOr st0 (do
    let (_, st) ← regionNew st0 (some "r0")
    let (_, st) ← regionNew st (some "r1")
    let (_, st) ← regionNew st (some "r2")
    let st := make_shareable st 3 2
    let st ← regionSetattr (openReg st 42 1) 9 42 1 "f" (.vregion 2)
    pure (openReg (closeReg st 1) 42 0))

/-- **C2** (counterexample): the claim says `R.attr = v` *succeeds* iff
`v` is shared, or `v == R`, or `R` owns `v`, or (`v` free and
`root_region ≠ v`).  Here `v` (region 2) is shared — `can_assign`
accepts — yet the assignment fails, because `add_child` then rejects the
non-free region with "Region is not free" (a different error variant than
the claimed *invalid region assignment*).  The children of R are
unchanged. -/
theorem c2_shared_owned_assignment_raises_not_free :
    (stC2a.find 2).map (·.sharedF) = some true ∧
    (stC2a.find 2).map (·.parentF) = some (some 1) ∧
    (stC2a.find 0).map (·.root) = some (freshRoot 0) ∧
    can_assign stC2a 9 (freshRoot 0) 2 = .ok true ∧
    regionSetattr stC2a 9 42 0 "g" (.vregion 2) = .error .regionNotFree ∧
    regionSetattr stC2a 9 42 0 "g" (.vregion 2) ≠ .error .invalidRegionAssignment ∧
    (stC2a.find 0).map (·.childrenF) = some [] := by
  have h0 : regionSetattr stC2a 9 42 0 "g" (.vregion 2) = .error .regionNotFree := rfl
  refine ⟨rfl, rfl, rfl, rfl, h0, fun h => ?_, rfl⟩
  rw [h0] at h
  simp at h

/-- The shared open region `c` with `c.a = "foo"`, as a behavior over it
would see it (worker 42 holds it open). -/
def stC7a : St :=
  okOr st0 (regionSetattr (openReg stR 42 0) 9 42 0 "a" (.vstr "foo"))

/-- `stC7a` after `make_shareable` and reopening by worker 42. -/
def stC7b : St := openReg (make_shareable (closeReg stC7a 0) 3 0) 42 0

/-- Result of `detach_all(c, "d")` on `stC7b`: the new region's identity
and the state. -/
def dC7 : Nat × St := okOr (99, st0) (detach_all stC7b 9 42 0 (some "d"))

/-- Result of `merge(c, d)` after the detach: the moved wrapper and the
state. -/
def mC7 : PVal × St := okOr (.vnone, st0) (merge dC7.2 9 42 0 1)

/-- **C7** (counterexample): the claim says `merge(R, detach_all(R))`
leaves every attribute of `R` readable with the same value.  Before the
composition `c.a` reads `"foo"`; afterwards `merge` has stored the old
root under a *fresh random* attribute name of `c`'s new empty root, so
the direct read `c.a` raises `AttributeError` — exactly why the
repository's own swap test reassigns `c1.b = merge.b` by hand. -/
theorem c7_merge_detach_drops_top_level_attribute :
    regionGetattr stC7b 9 42 0 "a" = .ok (.vstr "foo", stC7b) ∧
    detach_all stC7b 9 42 0 (some "d") = .ok dC7 ∧
    merge dC7.2 9 42 0 1 = .ok mC7 ∧
    regionGetattr mC7.2 9 42 0 "a" = .error (.attributeError "a") :=
  ⟨rfl, rfl, rfl, rfl⟩

/-! ## Registry lemmas -/

theorem findKey_updKey_self (l : List (PyKey × Reg)) (k : PyKey) (f : Reg → Reg) :
    findKey (updKey l k f) k = (findKey l k).map f := by
  induction l with
  | nil => rfl
  | cons kv rest ih =>
    obtain ⟨k', v⟩ := kv
    by_cases h : k' == k
    · simp [updKey, findKey, h]
    · simp [updKey, findKey, h, ih]

theorem findKey_updKey_ne (l : List (PyKey × Reg)) (k q : PyKey) (f : Reg → Reg)
    (h : q ≠ k) : findKey (updKey l k f) q = findKey l q := by
  induction l with
  | nil => rfl
  | cons kv rest ih =>
    obtain ⟨k', v⟩ := kv
    by_cases hk : k' == k
    · have hq : (k' == q) = false := by
        have h' : k' = k := by simpa using hk
        subst h'
        simpa using fun hh => h hh.symm
      simp [updKey, findKey, hk, hq]
    · by_cases hq : k' == q
      · simp [updKey, findKey, hk, hq]
      · simp [updKey, findKey, hk, hq, ih]

theorem updKey_updKey (l : List (PyKey × Reg)) (k : PyKey) (f g : Reg → Reg) :
    updKey (updKey l k f) k g = updKey l k (fun r => g (f r)) := by
  induction l with
  | nil => rfl
  | cons kv rest ih =>
    obtain ⟨k', v⟩ := kv
    by_cases h : k' == k
    · simp [updKey, h]
    · simp [updKey, h, ih]

theorem find_updateReg_self (st : St) (rid : Nat) (f : Reg → Reg) :
    (st.updateReg rid f).find rid = (st.find rid).map f :=
  findKey_updKey_self st.regs (PyKey.pint rid) f

theorem find_updateReg_ne (st : St) (rid q : Nat) (f : Reg → Reg) (h : q ≠ rid) :
    (st.updateReg rid f).find q = st.find q :=
  findKey_updKey_ne st.regs (PyKey.pint rid) (PyKey.pint q) f (by simpa using h)

theorem updateReg_updateReg (st : St) (rid : Nat) (f g : Reg → Reg) :
    (st.updateReg rid f).updateReg rid g = st.updateReg rid (fun r => g (f r)) := by
  simp only [St.updateReg]
  rw [updKey_updKey]

theorem aliasLookup_updateReg (st : St) (rid q : Nat) (f : Reg → Reg) :
    (st.updateReg rid f).aliasLookup q = st.aliasLookup q := rfl

/-- Reduce a successful bind of the `Except` monad. -/
theorem ebind_ok (a : α) (g : α → Except Err β) :
    (Except.ok a : Except Err α) >>= g = g a := rfl

/-- Reduce a failed bind of the `Except` monad. -/
theorem ebind_err (e : Err) (g : α → Except Err β) :
    (Except.error e : Except Err α) >>= g = .error e := rfl

/-- `pure` of the `Except` monad. -/
theorem epure_eq (a : α) : (pure a : Except Err α) = Except.ok a := rfl

/-- **C6**: `make_shareable` is idempotent — applying it twice to a region
(with no forwarding alias, the state of every region the operation is
used on) produces exactly the same runtime state as applying it once:
both end with the shared flag set, `last = None` and the lock installed,
and no other field changes. -/
theorem c6_make_shareable_idempotent (st : St) (f rid : Nat) (r : Reg)
    (hfind : st.find rid = some r) (halias : r.aliasF = none) :
    make_shareable (make_shareable st (f + 1) rid) (f + 1) rid =
      make_shareable st (f + 1) rid := by
  have hstep : ∀ (s : St) (q : Reg), s.find rid = some q → q.aliasF = none →
      make_shareable s (f + 1) rid =
        s.updateReg rid
          (fun r => { r with lastReq := none, lockInit := true, sharedF := true }) := by
    intro s q hq ha
    unfold make_shareable
    rw [hq]
    simp [Option.bind, ha]
  have h1 := hstep st r hfind halias
  have h2 : (make_shareable st (f + 1) rid).find rid =
      some { r with lastReq := none, lockInit := true, sharedF := true } := by
    rw [h1, find_updateReg_self, hfind]
    rfl
  rw [h1] at h2 ⊢
  rw [hstep _ _ h2 halias, updateReg_updateReg]

/-- **C6** witness: idempotence at the concrete fresh region. -/
theorem c6_make_shareable_idempotent_witness :
    make_shareable (make_shareable stR 1 0) 1 0 = make_shareable stR 1 0 :=
  c6_make_shareable_idempotent stR 0 0 r0closed rfl rfl

/-- **C10**: the openness predicates are relative to the calling thread:
`is_open` holds iff the caller is the recorded opener, `is_closed` is its
negation, and in particular `freeze`'s must-be-closed precondition passes
on any thread other than the opener even while the region is held open —
freezing an (empty) region open by worker `t'` succeeds on any other
thread `tid`. -/
theorem c10_openness_is_thread_relative (st : St) (f tid rid : Nat) (r : Reg)
    (hfind : st.find rid = some r) (halias : r.aliasF = none) :
    isOpenP st tid (f + 1) rid = .ok (r.openBy == some tid) ∧
    isClosedP st tid (f + 1) rid = .ok (r.openBy != some tid) ∧
    (∀ t', r.openBy = some t' → t' ≠ tid → r.root = freshRoot rid →
      regionFreeze st (f + 2) tid rid =
        .ok (.vnamed "FrozenRegion" [],
          st.updateReg rid (fun q => { q with root := freshRoot rid, parentF := none }))) := by
  have hopen : ∀ k, isOpenP st tid (k + 1) rid = .ok (r.openBy == some tid) := by
    intro k
    simp only [isOpenP]
    rw [hfind]
    simp [halias]
  refine ⟨hopen f, ?_, ?_⟩
  · simp only [isClosedP]
    rw [hfind]
    simp [halias]
  · intro t' ht' hne hroot
    have hbeq : (r.openBy == some tid) = false := by
      rw [ht']
      exact beq_eq_false_iff_ne.mpr (by simpa using hne)
    have hopen2 : isOpenP st tid (f + 1 + 1) rid = .ok false := by
      rw [hopen (f + 1), hbeq]
    show regionFreeze st (f + 1 + 1) tid rid = _
    simp only [regionFreeze, freezeC, stripWrapper, is_imm, Bool.false_eq_true, if_false]
    rw [hopen2, ebind_ok]
    simp only [Bool.false_eq_true, if_false]
    rw [hfind]
    simp [hroot, freshRoot, expectOne, expectVals, sortByName, ebind_ok, epure_eq, freezeC]

/-- **C10** witness: region 0 held open by worker 5 reports closed to
worker 7, and worker 7's freeze passes the must-be-closed check and
succeeds. -/
theorem c10_openness_is_thread_relative_witness :
    isOpenP (openReg stR 5 0) 7 1 0 = .ok false ∧
    isClosedP (openReg stR 5 0) 7 1 0 = .ok true ∧
    regionFreeze (openReg stR 5 0) 2 7 0 =
      .ok (.vnamed "FrozenRegion" [],
        (openReg stR 5 0).updateReg 0
          (fun q => { q with root := freshRoot 0, parentF := none })) := by
  obtain ⟨h1, h2, h3⟩ := c10_openness_is_thread_relative (openReg stR 5 0) 0 7 0
    { r0closed with openBy := some 5 } rfl rfl
  exact ⟨h1, h2, h3 5 rfl (by decide) rfl⟩

/-- **C9** (amended): submitting a behavior over a private region (one
that never went through `make_shareable`, hence without the scheduler
`lock`) fails synchronously inside phase 1 of the enqueue — with "Region
is closed" when the submitter does not hold the region open, with
`AttributeError("lock")` when it does — so the thunk is never scheduled;
the "Region is private." (must-be-shared) check lives inside the thunk
wrapper, as the third clause shows, and is never reached on this path. -/
theorem c9_when_private_submission (st : St) (tid rid : Nat) (r : Reg)
    (hfind : st.find rid = some r) (halias : r.aliasF = none)
    (hlock : r.lockInit = false) :
    (r.openBy ≠ some tid →
      whenSubmitPhase1 st tid [rid] = .error .regionIsClosed) ∧
    (r.openBy = some tid →
      whenSubmitPhase1 st tid [rid] = .error (.attributeError "lock")) ∧
    (∀ f, r.sharedF = false →
      whenBodyOpen st (f + 1) tid [rid] = .error .regionIsPrivate) := by
  refine ⟨?_, ?_, ?_⟩
  · intro hne
    have hbeq : (r.openBy == some tid) = false := beq_eq_false_iff_ne.mpr hne
    simp only [whenSubmitPhase1, behaviorInit, sortNats, insertNat, phase1Loop,
      startEnqueue, cownExchange]
    rw [hfind]
    simp [halias, hlock, hbeq, ebind_ok, ebind_err, epure_eq]
  · intro heq
    simp only [whenSubmitPhase1, behaviorInit, sortNats, insertNat, phase1Loop,
      startEnqueue, cownExchange]
    rw [hfind]
    simp [halias, hlock, heq, ebind_ok, ebind_err, epure_eq]
  · intro f hsh
    simp only [whenBodyOpen, isSharedP]
    rw [hfind]
    simp [halias, hsh, ebind_ok, ebind_err, epure_eq]

/-- **C9** witness: the fresh private region, submitted from a thread that
does not hold it open. -/
theorem c9_when_private_submission_witness :
    whenSubmitPhase1 stR 42 [0] = .error .regionIsClosed ∧
    whenBodyOpen stR 1 42 [0] = .error .regionIsPrivate := by
  obtain ⟨h1, _, h3⟩ := c9_when_private_submission stR 42 0 r0closed rfl rfl rfl
  exact ⟨h1 (by decide), h3 0 rfl⟩

/-- **C2** (amended): for a region `R` open by the calling worker, the
assignment `R.attr = v` with a Region value `v` succeeds iff `can_assign`
accepts **and** `v` is free; when `can_assign` rejects it raises *invalid
region assignment*; when `can_assign` accepts but `v` is not free,
`add_child` raises *region is not free* instead; on success `v` is
appended to `R`'s children, `v`'s parent becomes `R`, and the attribute
is written to the root (in the failure cases no state is produced — every
mutation of the embedding is threaded through the returned state, so
`R.children` is unchanged). -/
theorem c2_region_assignment_cases (st : St) (g tid rid vrid : Nat) (r : Reg)
    (name : String) (fields : List (String × PVal)) (b : Bool)
    (hfind : st.find rid = some r) (halias : r.aliasF = none)
    (hopen : r.openBy = some tid)
    (hroot : r.root = .vwrapped rid (.vobj "Root" (some rid) fields))
    (hamap : st.aliasLookup rid = none)
    (hca : can_assign st (g + 1) r.root vrid = .ok b) :
    (b = false →
      regionSetattr st (g + 2) tid rid name (.vregion vrid) =
        .error .invalidRegionAssignment) ∧
    (b = true → isFreeP st g vrid = false →
      regionSetattr st (g + 2) tid rid name (.vregion vrid) = .error .regionNotFree) ∧
    (b = true → isFreeP st g vrid = true →
      regionSetattr st (g + 2) tid rid name (.vregion vrid) =
        .ok (((st.updateReg rid
            (fun q => { q with childrenF := q.childrenF ++ [vrid] })).updateReg vrid
            (fun q => { q with parentF := some rid })).updateReg rid
            (fun q => { q with root := .vwrapped rid (.vobj "Root" (some rid)
              (setField fields name (.vregion vrid))) }))) ∧
    ((∃ st', regionSetattr st (g + 2) tid rid name (.vregion vrid) = .ok st') ↔
      (b = true ∧ isFreeP st g vrid = true)) := by
  rw [hroot] at hca
  have hres : resolveAlias st (g + 1) rid = some rid := by
    simp only [resolveAlias]
    rw [hamap]
  have hrov : regionOfVal st (g + 1)
      (PVal.vwrapped rid (PVal.vobj "Root" (some rid) fields)) = some rid := by
    simp only [regionOfVal, rawRegionField, regionOfId]
    rw [hres]
    simp [hfind]
  have hclosed : isClosedP st tid (g + 1) rid = .ok false := by
    simp only [isClosedP]
    rw [hfind]
    simp [halias, hopen]
  have hchk : isolatedCheck st (g + 1) tid
      (PVal.vwrapped rid (PVal.vobj "Root" (some rid) fields)) = .ok () := by
    simp only [isolatedCheck]
    rw [hrov]
    simp [hclosed, ebind_ok, epure_eq]
  have hmain : ∀ (hb : Bool), can_assign st (g + 1)
        (PVal.vwrapped rid (PVal.vobj "Root" (some rid) fields)) vrid = .ok hb →
      regionSetattr st (g + 2) tid rid name (.vregion vrid) =
        (if hb then
          (if isFreeP st g vrid then
            .ok (((st.updateReg rid
              (fun q => { q with childrenF := q.childrenF ++ [vrid] })).updateReg vrid
              (fun q => { q with parentF := some rid })).updateReg rid
              (fun q => { q with root := .vwrapped rid (.vobj "Root" (some rid)
                (setField fields name (.vregion vrid))) }))
          else .error .regionNotFree)
        else .error .invalidRegionAssignment) := by
    intro hb hcab
    simp only [regionSetattr, hfind, halias, Option.bind, ebind_ok, epure_eq]
    simp only [rioSetattr, hroot, hchk, ebind_ok, hcab]
    cases hb with
    | false => simp [ebind_err]
    | true =>
      simp only [hrov]
      simp only [add_child, hfind, halias, Option.bind, ebind_ok, epure_eq]
      cases hfree : isFreeP st g vrid with
      | false => simp [ebind_err]
      | true => simp [ebind_ok, epure_eq]
  have hm := hmain b hca
  refine ⟨?_, ?_, ?_, ?_⟩
  · intro hb
    rw [hb] at hm
    simpa using hm
  · intro hb hfree
    rw [hb] at hm
    rw [hfree] at hm
    simpa using hm
  · intro hb hfree
    rw [hb] at hm
    rw [hfree] at hm
    simpa using hm
  · constructor
    · rintro ⟨st', hst'⟩
      cases b with
      | false =>
        rw [hm] at hst'
        simp at hst'
      | true =>
        cases hfree : isFreeP st g vrid with
        | false =>
          rw [hfree] at hm
          rw [hm] at hst'
          simp at hst'
        | true => exact ⟨rfl, rfl⟩

    · rintro ⟨hb, hfree⟩
      rw [hb] at hm
      rw [hfree] at hm
      simp only [if_true] at hm
      exact ⟨_, hm⟩

/-! ## Helper lemmas for the symbolic executions -/

theorem findKey_append_left (l l2 : List (PyKey × Reg)) (k : PyKey) (v : Reg)
    (h : findKey l k = some v) : findKey (l ++ l2) k = some v := by
  induction l with
  | nil => simp [findKey] at h
  | cons kv rest ih =>
    obtain ⟨k', w⟩ := kv
    by_cases hk : k' == k
    · simpa [findKey, hk] using h
    · simp [findKey, hk] at h ⊢
      exact ih h

theorem findKey_append_fresh (l : List (PyKey × Reg)) (k : PyKey) (v : Reg)
    (h : findKey l k = none) : findKey (l ++ [(k, v)]) k = some v := by
  induction l with
  | nil => simp [findKey]
  | cons kv rest ih =>
    obtain ⟨k', w⟩ := kv
    by_cases hk : k' == k
    · simp [findKey, hk] at h
    · simp [findKey, hk] at h ⊢
      exact ih h

theorem lookupNN_append (l : List (Nat × Nat)) (k t q : Nat)
    (h : lookupNN l q = none) :
    lookupNN (l ++ [(k, t)]) q = if k = q then some t else none := by
  induction l with
  | nil =>
    by_cases hk : k = q
    · simp [lookupNN, hk]
    · have hb : (k == q) = false := by simp [hk]
      simp [lookupNN, hb, hk]
  | cons kv rest ih =>
    obtain ⟨k', w⟩ := kv
    by_cases hk : k' == q
    · simp [lookupNN, hk] at h
    · simp [lookupNN, hk] at h ⊢
      exact ih h

theorem resolveAlias_none (st : St) (f rid : Nat) (h : st.aliasLookup rid = none) :
    resolveAlias st (f + 1) rid = some rid := by
  simp only [resolveAlias]
  rw [h]

theorem regionOfId_stable (st : St) (f rid : Nat) (h : st.aliasLookup rid = none)
    (hfind : (st.find rid).isSome = true) :
    regionOfId st (f + 1) (some rid) = some rid := by
  simp only [regionOfId]
  rw [resolveAlias_none st f rid h]
  simp [hfind]

theorem isSharedP_found (st : St) (f rid : Nat) (r : Reg)
    (hfind : st.find rid = some r) (halias : r.aliasF = none) :
    isSharedP st (f + 1) rid = .ok r.sharedF := by
  simp only [isSharedP]
  rw [hfind]
  simp [halias]

theorem isPrivateP_found (st : St) (f rid : Nat) (r : Reg)
    (hfind : st.find rid = some r) (halias : r.aliasF = none) :
    isPrivateP st (f + 1) rid = .ok (!r.sharedF) := by
  simp only [isPrivateP]
  rw [hfind]
  simp [halias]

theorem isOpenP_found (st : St) (tid f rid : Nat) (r : Reg)
    (hfind : st.find rid = some r) (halias : r.aliasF = none) :
    isOpenP st tid (f + 1) rid = .ok (r.openBy == some tid) := by
  simp only [isOpenP]
  rw [hfind]
  simp [halias]

theorem isClosedP_found (st : St) (tid f rid : Nat) (r : Reg)
    (hfind : st.find rid = some r) (halias : r.aliasF = none) :
    isClosedP st tid (f + 1) rid = .ok (r.openBy != some tid) := by
  simp only [isClosedP]
  rw [hfind]
  simp [halias]

/-- Capturing an immutable value is a no-op (the first guard of
`_capture`). -/
theorem captureC_one_imm (st : St) (f rid : Nat) (v : PVal) (ow : Bool)
    (halias : (st.find rid).bind (·.aliasF) = none) (himm : is_imm v = true) :
    captureC (f + 1) st rid (.one v) ow = .ok (.one v, st) := by
  simp only [captureC]
  rw [halias]
  simp [himm, ebind_ok, epure_eq]

/-- Walking the `__dict__` of an object whose attribute values are all
immutable captures nothing and leaves the state unchanged. -/
theorem captureC_attrs_imm (st : St) (rid : Nat) (ow : Bool) :
    ∀ (kvs : List (String × PVal)) (f : Nat),
    (st.find rid).bind (·.aliasF) = none →
    (∀ kv ∈ kvs, is_imm kv.2 = true) →
    kvs.length + 1 ≤ f →
    captureC f st rid (.attrs kvs) ow = .ok (.vals kvs, st) := by
  intro kvs
  induction kvs with
  | nil =>
    intro f _ _ hf
    obtain ⟨f', rfl⟩ : ∃ f', f = f' + 1 := ⟨f - 1, by omega⟩
    simp [captureC, epure_eq]
  | cons kv rest ih =>
    intro f halias himm hf
    obtain ⟨k, v⟩ := kv
    have hf2 : rest.length + 2 ≤ f := by simpa using hf
    obtain ⟨f', rfl⟩ : ∃ f', f = f' + 1 := ⟨f - 1, by omega⟩
    have hf' : rest.length + 1 ≤ f' := by omega
    have hrest := ih f' halias (fun kv hkv => himm kv (List.mem_cons_of_mem _ hkv)) hf'
    have hone : ∀ owx, captureC f' st rid (.one v) owx = .ok (.one v, st) := by
      intro owx
      obtain ⟨f'', rfl⟩ : ∃ f'', f' = f'' + 1 := ⟨f' - 1, by omega⟩
      exact captureC_one_imm st f'' rid v owx halias (himm (k, v) (by simp))
    have hv : is_imm v = true := himm (k, v) (by simp)
    by_cases hp : isPrivateName k
    · simp [captureC, hp, hrest, ebind_ok, epure_eq, expectVals]
    · simp [captureC, hp, halias, hv, hone, hrest, ebind_ok, epure_eq,
        expectOne, expectVals]

/-- A field looked up among all-immutable fields is immutable. -/
theorem getField_imm (kvs : List (String × PVal)) (a : String) (v : PVal)
    (himm : ∀ kv ∈ kvs, is_imm kv.2 = true) (h : getField kvs a = some v) :
    is_imm v = true := by
  induction kvs with
  | nil => simp [getField] at h
  | cons kv rest ih =>
    obtain ⟨k, w⟩ := kv
    by_cases hk : k == a
    · simp [getField, List.find?, hk] at h
      subst h
      exact himm (k, w) (by simp)
    · simp only [getField, List.find?, hk] at h ⊢
      exact ih (fun kv hkv => himm kv (List.mem_cons_of_mem _ hkv))
        (by simpa [getField] using h)

/-- Capturing a value that is immutable or already in the target region is
a no-op (the first guard of `_capture`). -/
theorem captureC_one_early (st : St) (f rid : Nat) (v : PVal) (ow : Bool)
    (halias : (st.find rid).bind (·.aliasF) = none)
    (h : (is_imm v || (regionOfVal st f v == some rid)) = true) :
    captureC (f + 1) st rid (.one v) ow = .ok (.one v, st) := by
  simp only [captureC]
  rw [halias]
  simp only [ebind_ok, epure_eq]
  rw [if_pos h]

/-- `_capture` with overwrite of a plain object that belongs elsewhere:
re-point its `__region__` and walk its (all-immutable) attributes. -/
theorem captureC_obj_move (st : St) (f d : Nat) (cls : String) (rf : Option Nat)
    (fields : List (String × PVal))
    (haliasd : (st.find d).bind (·.aliasF) = none)
    (hrov : (regionOfVal st f (.vobj cls rf fields) == some d) = false)
    (hrov2 : regionOfVal st f (.vobj cls (some d) fields) = some d)
    (himm : ∀ kv ∈ fields, is_imm kv.2 = true)
    (hlen : fields.length + 1 ≤ f) :
    captureC (f + 1) st d (.one (.vobj cls rf fields)) true =
      .ok (.one (.vobj cls (some d) fields), st) := by
  have hattrs := captureC_attrs_imm st d true fields f haliasd himm hlen
  have hg1 : ¬ ((is_imm (PVal.vobj cls rf fields) ||
      (regionOfVal st f (PVal.vobj cls rf fields) == some d)) = true) := by
    simp [is_imm, hrov]
  have hg2 : ¬ (((regionOfVal st f (PVal.vobj cls rf fields)).isSome && !true) = true) := by
    simp
  simp only [captureC]
  rw [haliasd]
  simp only [ebind_ok, epure_eq]
  rw [if_neg hg1, if_neg hg2]
  rw [hrov2]
  simp only [bne_self_eq_false, Bool.false_eq_true, if_false]
  rw [hattrs]
  simp [expectVals, ebind_ok, epure_eq]

/-! ## Symbolic execution of detach_all followed by merge (for C7) -/

/-- The state after a collision-free `Region(nm)`. -/
def stAfterNew (st : St) (nm : String) : St :=
  { st with
    regs := st.regs ++ [(PyKey.pint st.counter, mkReg nm st.counter)],
    counter := st.counter + 1 }

theorem regionNew_ok (st : St) (nm : String)
    (hname : st.regs.any (fun kv => kv.1 == PyKey.pstr nm) = false) :
    regionNew st (some nm) = .ok (st.counter, stAfterNew st nm) := by
  simp [regionNew, stAfterNew, hname]

/-- The state `detach_all(R, nm)` leaves behind: the moved root lives in
the fresh region, `R` gets a fresh empty root. -/
def detachSt (st : St) (rid : Nat) (fields : List (String × PVal)) (nm : String) : St :=
  ((stAfterNew st nm).updateReg st.counter
    (fun q => { q with
      root := .vwrapped st.counter (.vobj "Root" (some st.counter) fields) })).updateReg rid
    (fun q => { q with root := freshRoot rid })

theorem detach_all_ok (st : St) (k tid rid : Nat) (r : Reg)
    (fields : List (String × PVal)) (nm : String)
    (hfind : st.find rid = some r) (halias : r.aliasF = none)
    (hopen : r.openBy = some tid) (hshared : r.sharedF = true)
    (hroot : r.root = .vwrapped rid (.vobj "Root" (some rid) fields))
    (hamap : st.aliasLookup rid = none)
    (hcfree : st.find st.counter = none)
    (hcamap : st.aliasLookup st.counter = none)
    (hname : st.regs.any (fun kv => kv.1 == PyKey.pstr nm) = false)
    (himm : ∀ kv ∈ fields, is_imm kv.2 = true)
    (hk : fields.length ≤ k) :
    detach_all st (k + 4) tid rid (some nm) =
      .ok (st.counter, detachSt st rid fields nm) := by
  have hdne : rid ≠ st.counter := by
    intro h
    rw [h, hcfree] at hfind
    exact Option.noConfusion hfind
  rw [show (k + 4 : Nat) = k + 2 + 1 + 1 from rfl]
  have hclosed : isClosedP st tid (k + 2 + 1 + 1) rid = .ok false := by
    rw [isClosedP_found st tid (k + 2 + 1) rid r hfind halias]
    simp [hopen]
  have hpriv : isPrivateP st (k + 2 + 1 + 1) rid = .ok false := by
    rw [isPrivateP_found st (k + 2 + 1) rid r hfind halias]
    simp [hshared]
  have hnew := regionNew_ok st nm hname
  have hfind1 : (stAfterNew st nm).find rid = some r := by
    simp only [stAfterNew, St.find]
    exact findKey_append_left _ _ _ _ hfind
  have hfindd : (stAfterNew st nm).find st.counter = some (mkReg nm st.counter) := by
    simp only [stAfterNew, St.find]
    exact findKey_append_fresh _ _ _ hcfree
  have haliasd : ((stAfterNew st nm).find st.counter).bind (·.aliasF) = none := by
    rw [hfindd]
    rfl
  have hrov1 : regionOfVal (stAfterNew st nm) (k + 2 + 1)
      (.vobj "Root" (some rid) fields) = some rid := by
    simp only [regionOfVal, rawRegionField]
    exact regionOfId_stable _ (k + 2) rid hamap (by rw [hfind1]; rfl)
  have hrov2 : regionOfVal (stAfterNew st nm) (k + 2 + 1)
      (.vobj "Root" (some st.counter) fields) = some st.counter := by
    simp only [regionOfVal, rawRegionField]
    exact regionOfId_stable _ (k + 2) st.counter hcamap (by rw [hfindd]; rfl)
  have hrovne : (regionOfVal (stAfterNew st nm) (k + 2 + 1)
      (.vobj "Root" (some rid) fields) == some st.counter) = false := by
    rw [hrov1]
    exact beq_eq_false_iff_ne.mpr (by simpa using hdne)
  have hcap := captureC_obj_move (stAfterNew st nm) (k + 2 + 1) st.counter "Root"
    (some rid) fields haliasd hrovne hrov2 himm (by omega)
  simp only [detach_all, hclosed, hpriv, hnew, hfind1, hroot, capture, hcap,
    ebind_ok, epure_eq, expectOne, Option.map, Bool.false_eq_true, if_false,
    detachSt]

/-- The state after `merge(R, d)` on the detached pair: alias recorded,
moved wrapper re-pointed to `R`, the old root stored under the fresh
random attribute of `R`'s new empty root, and `d.alias` installed. -/
def mergeSt (st : St) (rid : Nat) (fields : List (String × PVal)) (nm : String) : St :=
  ((((detachSt st rid fields nm).setAlias st.counter rid).updateReg st.counter
    (fun q => { q with
      root := .vwrapped rid (.vobj "Root" (some st.counter) fields) })).updateReg rid
    (fun q => { q with
      root := .vwrapped rid (.vobj "Root" (some rid)
        [(randomWord 8, .vwrapped rid (.vobj "Root" (some st.counter) fields))]) })).updateReg
    st.counter (fun q => { q with aliasF := some rid })

theorem merge_ok (st : St) (k tid rid : Nat) (r : Reg)
    (fields : List (String × PVal)) (nm : String)
    (hfind : st.find rid = some r) (halias : r.aliasF = none)
    (hopen : r.openBy = some tid)
    (hfree : r.parentF = none)
    (hamap : st.aliasLookup rid = none)
    (hcfree : st.find st.counter = none)
    (hcamap : st.aliasLookup st.counter = none) :
    merge (detachSt st rid fields nm) (k + 4) tid rid st.counter =
      .ok (.vwrapped rid (.vobj "Root" (some st.counter) fields),
        mergeSt st rid fields nm) := by
  have hdne : rid ≠ st.counter := by
    intro h
    rw [h, hcfree] at hfind
    exact Option.noConfusion hfind
  have hcne : ¬ (st.counter = rid) := fun h => hdne h.symm
  have hfind1 : (stAfterNew st nm).find rid = some r := by
    simp only [stAfterNew, St.find]
    exact findKey_append_left _ _ _ _ hfind
  have hfindd : (stAfterNew st nm).find st.counter = some (mkReg nm st.counter) := by
    simp only [stAfterNew, St.find]
    exact findKey_append_fresh _ _ _ hcfree
  have hfindD : (detachSt st rid fields nm).find rid =
      some { r with root := freshRoot rid } := by
    simp only [detachSt]
    rw [find_updateReg_self, find_updateReg_ne _ _ _ _ hdne, hfind1]
    rfl
  have hfindDd : (detachSt st rid fields nm).find st.counter =
      some { mkReg nm st.counter with
        root := .vwrapped st.counter (.vobj "Root" (some st.counter) fields) } := by
    simp only [detachSt]
    rw [find_updateReg_ne _ _ _ _ hcne, find_updateReg_self, hfindd]
    rfl
  have haD : (detachSt st rid fields nm).aliasLookup st.counter = none := hcamap
  have haDrid : (detachSt st rid fields nm).aliasLookup rid = none := hamap
  have hclosedD : isClosedP (detachSt st rid fields nm) tid (k + 3) rid = .ok false := by
    rw [show (k + 3 : Nat) = (k + 2) + 1 from rfl,
      isClosedP_found _ tid (k + 2) rid _ hfindD halias]
    simp [hopen]
  have hfreeD : isFreeP (detachSt st rid fields nm) (k + 3) rid = true := by
    simp only [isFreeP]
    rw [hfindD]
    simp [Option.bind, hfree, regionOfId]
  have hsetA : (detachSt st rid fields nm).setAlias st.counter rid =
      { detachSt st rid fields nm with
        aliases := (detachSt st rid fields nm).aliases ++ [(st.counter, rid)] } := by
    simp [St.setAlias, haD]
  have hEfindRid : ((detachSt st rid fields nm).setAlias st.counter rid).find rid =
      some { r with root := freshRoot rid } := by
    rw [hsetA]
    exact hfindD
  have hEfindD : ((detachSt st rid fields nm).setAlias st.counter rid).find st.counter =
      some { mkReg nm st.counter with
        root := .vwrapped st.counter (.vobj "Root" (some st.counter) fields) } := by
    rw [hsetA]
    exact hfindDd
  have hElkD : ((detachSt st rid fields nm).setAlias st.counter rid).aliasLookup
      st.counter = some rid := by
    rw [hsetA]
    show lookupNN ((detachSt st rid fields nm).aliases ++ [(st.counter, rid)])
      st.counter = some rid
    rw [lookupNN_append _ _ _ _ haD]
    simp
  have hElkRid : ((detachSt st rid fields nm).setAlias st.counter rid).aliasLookup
      rid = none := by
    rw [hsetA]
    show lookupNN ((detachSt st rid fields nm).aliases ++ [(st.counter, rid)]) rid = none
    rw [lookupNN_append _ _ _ _ haDrid]
    simp [hcne]
  have hEaliasRid : (((detachSt st rid fields nm).setAlias st.counter rid).find
      rid).bind (·.aliasF) = none := by
    rw [hEfindRid]
    simpa using halias
  have hrovE : regionOfVal ((detachSt st rid fields nm).setAlias st.counter rid)
      (k + 2) (.vobj "Root" (some st.counter) fields) = some rid := by
    simp only [regionOfVal, rawRegionField, regionOfId]
    have h1 : resolveAlias ((detachSt st rid fields nm).setAlias st.counter rid)
        (k + 2) st.counter =
        resolveAlias ((detachSt st rid fields nm).setAlias st.counter rid) (k + 1) rid := by
      rw [show (k + 2 : Nat) = (k + 1) + 1 from rfl]
      simp only [resolveAlias]
      rw [hElkD]
    rw [h1, resolveAlias_none _ k rid hElkRid]
    simp [hEfindRid]
  have hcapE : captureC (k + 3)
      ((detachSt st rid fields nm).setAlias st.counter rid) rid
      (.one (.vobj "Root" (some st.counter) fields)) true =
      .ok (.one (.vobj "Root" (some st.counter) fields),
        (detachSt st rid fields nm).setAlias st.counter rid) := by
    rw [show (k + 3 : Nat) = (k + 2) + 1 from rfl]
    exact captureC_one_early _ (k + 2) rid _ true hEaliasRid (by simp [is_imm, hrovE])
  have hFfindRid : (((detachSt st rid fields nm).setAlias st.counter rid).updateReg
      st.counter (fun q => { q with
        root := .vwrapped rid (.vobj "Root" (some st.counter) fields) })).find rid =
      some { r with root := freshRoot rid } := by
    rw [find_updateReg_ne _ _ _ _ hdne]
    exact hEfindRid
  have hFlkRid : (((detachSt st rid fields nm).setAlias st.counter rid).updateReg
      st.counter (fun q => { q with
        root := .vwrapped rid (.vobj "Root" (some st.counter) fields) })).aliasLookup
      rid = none := hElkRid
  have hclosedF : isClosedP (((detachSt st rid fields nm).setAlias st.counter
      rid).updateReg st.counter (fun q => { q with
        root := .vwrapped rid (.vobj "Root" (some st.counter) fields) })) tid
      (k + 3) rid = .ok false := by
    rw [show (k + 3 : Nat) = (k + 2) + 1 from rfl,
      isClosedP_found _ tid (k + 2) rid _ hFfindRid (by simpa using halias)]
    simp [hopen]
  have hrovF1 : regionOfVal (((detachSt st rid fields nm).setAlias st.counter
      rid).updateReg st.counter (fun q => { q with
        root := .vwrapped rid (.vobj "Root" (some st.counter) fields) })) (k + 3)
      (.vwrapped rid (.vobj "Root" (some rid) [])) = some rid := by
    simp only [regionOfVal, rawRegionField]
    rw [show (k + 3 : Nat) = (k + 2) + 1 from rfl]
    exact regionOfId_stable _ (k + 2) rid hFlkRid (by rw [hFfindRid]; rfl)
  have hrovF2 : regionOfVal (((detachSt st rid fields nm).setAlias st.counter
      rid).updateReg st.counter (fun q => { q with
        root := .vwrapped rid (.vobj "Root" (some st.counter) fields) })) (k + 3)
      (.vwrapped rid (.vobj "Root" (some st.counter) fields)) = some rid := by
    simp only [regionOfVal, rawRegionField]
    rw [show (k + 3 : Nat) = (k + 2) + 1 from rfl]
    exact regionOfId_stable _ (k + 2) rid hFlkRid (by rw [hFfindRid]; rfl)
  have hdl : distinctLen [some rid, some rid, none, some rid] = 2 := by
    simp [distinctLen, List.contains]
  have hiso : isolatedCheck (((detachSt st rid fields nm).setAlias st.counter
      rid).updateReg st.counter (fun q => { q with
        root := .vwrapped rid (.vobj "Root" (some st.counter) fields) })) (k + 3)
      tid (.vwrapped rid (.vobj "Root" (some rid) [])) = .ok () := by
    simp only [isolatedCheck]
    rw [hrovF1]
    simp [hclosedF, ebind_ok, epure_eq]
  have hset : rioSetattr (((detachSt st rid fields nm).setAlias st.counter
      rid).updateReg st.counter (fun q => { q with
        root := .vwrapped rid (.vobj "Root" (some st.counter) fields) })) (k + 3)
      tid (.vwrapped rid (.vobj "Root" (some rid) [])) (randomWord 8)
      (.vwrapped rid (.vobj "Root" (some st.counter) fields)) =
      .ok (.vwrapped rid (.vobj "Root" (some rid)
          [(randomWord 8, .vwrapped rid (.vobj "Root" (some st.counter) fields))]),
        ((detachSt st rid fields nm).setAlias st.counter rid).updateReg st.counter
          (fun q => { q with
            root := .vwrapped rid (.vobj "Root" (some st.counter) fields) })) := by
    simp only [rioSetattr, hiso, ebind_ok]
    rw [hrovF2, hrovF1, hdl]
    simp [is_imm, setField, ebind_ok, epure_eq]
  rw [show (k + 4 : Nat) = (k + 3) + 1 from rfl]
  simp only [merge, hfindD, halias, hclosedD, hfreeD, Bool.false_eq_true, if_false,
    Bool.not_true, hEfindD, Option.map, capture, hcapE, expectOne, hFfindRid,
    freshRoot, hset, ebind_ok, epure_eq, mergeSt]

/-- The state after the first read of the fresh synthetic attribute
(`Region.__getattr__` writes the root wrapper back). -/
def readSt (st : St) (rid : Nat) (fields : List (String × PVal)) (nm : String) : St :=
  (mergeSt st rid fields nm).updateReg rid (fun q => { q with
    root := .vwrapped rid (.vobj "Root" (some rid)
      [(randomWord 8, .vwrapped rid (.vobj "Root" (some st.counter) fields))]) })

/-- **C7** (amended): on an open shared free region `R` whose attributes
hold immutable values (the case `detach_all` supports), the composition
`merge(R, detach_all(R))` does *not* leave the top-level namespace
unchanged — it stores the old root under the single fresh random
synthetic attribute of `R`'s new empty root — and every former attribute
`a` of `R` remains readable with its old value one level down, as
`R.<fresh>.a`. -/
theorem c7_merge_detach_roundtrip_preserves_attrs_under_fresh_name
    (st : St) (k tid rid : Nat) (r : Reg) (fields : List (String × PVal)) (nm : String)
    (hfind : st.find rid = some r) (halias : r.aliasF = none)
    (hopen : r.openBy = some tid) (hshared : r.sharedF = true)
    (hfree : r.parentF = none)
    (hroot : r.root = .vwrapped rid (.vobj "Root" (some rid) fields))
    (hamap : st.aliasLookup rid = none)
    (hcfree : st.find st.counter = none)
    (hcamap : st.aliasLookup st.counter = none)
    (hname : st.regs.any (fun kv => kv.1 == PyKey.pstr nm) = false)
    (himm : ∀ kv ∈ fields, is_imm kv.2 = true)
    (hk : fields.length ≤ k) :
    (do
      let (d, st1) ← detach_all st (k + 4) tid rid (some nm)
      merge st1 (k + 4) tid rid d) =
        .ok (.vwrapped rid (.vobj "Root" (some st.counter) fields),
          mergeSt st rid fields nm) ∧
    ∀ a v, getField fields a = some v →
      regionGetattr (mergeSt st rid fields nm) (k + 4) tid rid (randomWord 8) =
        .ok (.vwrapped rid (.vobj "Root" (some st.counter) fields),
          readSt st rid fields nm) ∧
      rioGetattr (readSt st rid fields nm) (k + 4) tid
        (.vwrapped rid (.vobj "Root" (some st.counter) fields)) a =
        .ok (v, .vwrapped rid (.vobj "Root" (some st.counter) fields),
          readSt st rid fields nm) := by
  have hdne : rid ≠ st.counter := by
    intro h
    rw [h, hcfree] at hfind
    exact Option.noConfusion hfind
  have hcne : ¬ (st.counter = rid) := fun h => hdne h.symm
  have hfind1 : (stAfterNew st nm).find rid = some r := by
    simp only [stAfterNew, St.find]
    exact findKey_append_left _ _ _ _ hfind
  have hfindD : (detachSt st rid fields nm).find rid =
      some { r with root := freshRoot rid } := by
    simp only [detachSt]
    rw [find_updateReg_self, find_updateReg_ne _ _ _ _ hdne, hfind1]
    rfl
  have haD : (detachSt st rid fields nm).aliasLookup st.counter = none := hcamap
  have haDrid : (detachSt st rid fields nm).aliasLookup rid = none := hamap
  have hsetA : (detachSt st rid fields nm).setAlias st.counter rid =
      { detachSt st rid fields nm with
        aliases := (detachSt st rid fields nm).aliases ++ [(st.counter, rid)] } := by
    simp [St.setAlias, haD]
  have hEfindRid : ((detachSt st rid fields nm).setAlias st.counter rid).find rid =
      some { r with root := freshRoot rid } := by
    rw [hsetA]
    exact hfindD
  have hElkRid : ((detachSt st rid fields nm).setAlias st.counter rid).aliasLookup
      rid = none := by
    rw [hsetA]
    show lookupNN ((detachSt st rid fields nm).aliases ++ [(st.counter, rid)]) rid = none
    rw [lookupNN_append _ _ _ _ haDrid]
    simp [hcne]
  -- part 1: the composition
  have hpart1 : (do
      let (d, st1) ← detach_all st (k + 4) tid rid (some nm)
      merge st1 (k + 4) tid rid d) =
        .ok (PVal.vwrapped rid (PVal.vobj "Root" (some st.counter) fields),
          mergeSt st rid fields nm) := by
    have h1 := detach_all_ok st k tid rid r fields nm hfind halias hopen hshared
      hroot hamap hcfree hcamap hname himm hk
    have h2 := merge_ok st k tid rid r fields nm hfind halias hopen hfree hamap
      hcfree hcamap
    simp [h1, h2, ebind_ok]
  refine ⟨hpart1, ?_⟩
  intro a v hget
  have hva : is_imm v = true := getField_imm fields a v himm hget
  -- facts about M := mergeSt st rid fields nm
  have hMfindRid : (mergeSt st rid fields nm).find rid =
      some { r with root := PVal.vwrapped rid (PVal.vobj "Root" (some rid)
        [(randomWord 8, PVal.vwrapped rid (PVal.vobj "Root" (some st.counter)
          fields))]) } := by
    simp only [mergeSt]
    rw [find_updateReg_ne _ _ _ _ hdne, find_updateReg_self,
      find_updateReg_ne _ _ _ _ hdne, hEfindRid]
    rfl
  have hMlkRid : (mergeSt st rid fields nm).aliasLookup rid = none := hElkRid
  have hMisSome : ((mergeSt st rid fields nm).find rid).isSome = true := by
    rw [hMfindRid]
    rfl
  have hMclosed : isClosedP (mergeSt st rid fields nm) tid (k + 3) rid = .ok false := by
    rw [show (k + 3 : Nat) = (k + 2) + 1 from rfl,
      isClosedP_found _ tid (k + 2) rid _ hMfindRid (by simpa using halias)]
    simp [hopen]
  have hMrov : regionOfVal (mergeSt st rid fields nm) (k + 3)
      (PVal.vwrapped rid (PVal.vobj "Root" (some rid)
        [(randomWord 8, PVal.vwrapped rid (PVal.vobj "Root" (some st.counter)
          fields))])) = some rid := by
    simp only [regionOfVal, rawRegionField]
    rw [show (k + 3 : Nat) = (k + 2) + 1 from rfl]
    exact regionOfId_stable _ (k + 2) rid hMlkRid hMisSome
  have hMiso : isolatedCheck (mergeSt st rid fields nm) (k + 3) tid
      (PVal.vwrapped rid (PVal.vobj "Root" (some rid)
        [(randomWord 8, PVal.vwrapped rid (PVal.vobj "Root" (some st.counter)
          fields))])) = .ok () := by
    simp only [isolatedCheck]
    rw [hMrov]
    simp [hMclosed, ebind_ok, epure_eq]
  have hread1 : regionGetattr (mergeSt st rid fields nm) (k + 4) tid rid
      (randomWord 8) =
      .ok (PVal.vwrapped rid (PVal.vobj "Root" (some st.counter) fields),
        readSt st rid fields nm) := by
    rw [show (k + 4 : Nat) = (k + 3) + 1 from rfl]
    simp only [regionGetattr, hMfindRid, halias]
    simp only [rioGetattr, hMiso, ebind_ok]
    simp [getField, List.find?, epure_eq, ebind_ok, readSt, Bool.or_true]
  -- facts about R := readSt st rid fields nm
  have hRfindRid : (readSt st rid fields nm).find rid =
      some { r with root := PVal.vwrapped rid (PVal.vobj "Root" (some rid)
        [(randomWord 8, PVal.vwrapped rid (PVal.vobj "Root" (some st.counter)
          fields))]) } := by
    simp only [readSt]
    rw [find_updateReg_self, hMfindRid]
    rfl
  have hRlkRid : (readSt st rid fields nm).aliasLookup rid = none := hElkRid
  have hRisSome : ((readSt st rid fields nm).find rid).isSome = true := by
    rw [hRfindRid]
    rfl
  have hRclosed : isClosedP (readSt st rid fields nm) tid (k + 4) rid = .ok false := by
    rw [show (k + 4 : Nat) = (k + 3) + 1 from rfl,
      isClosedP_found _ tid (k + 3) rid _ hRfindRid (by simpa using halias)]
    simp [hopen]
  have hRrov : regionOfVal (readSt st rid fields nm) (k + 4)
      (PVal.vwrapped rid (PVal.vobj "Root" (some st.counter) fields)) = some rid := by
    simp only [regionOfVal, rawRegionField]
    rw [show (k + 4 : Nat) = (k + 3) + 1 from rfl]
    exact regionOfId_stable _ (k + 3) rid hRlkRid hRisSome
  have hRiso : isolatedCheck (readSt st rid fields nm) (k + 4) tid
      (PVal.vwrapped rid (PVal.vobj "Root" (some st.counter) fields)) = .ok () := by
    simp only [isolatedCheck]
    rw [hRrov]
    simp [hRclosed, ebind_ok, epure_eq]
  have hread2 : rioGetattr (readSt st rid fields nm) (k + 4) tid
      (PVal.vwrapped rid (PVal.vobj "Root" (some st.counter) fields)) a =
      .ok (v, PVal.vwrapped rid (PVal.vobj "Root" (some st.counter) fields),
        readSt st rid fields nm) := by
    simp only [rioGetattr, hRiso, ebind_ok]
    rw [hget]
    simp [hva, epure_eq]
  exact ⟨hread1, hread2⟩

/-- Region 0 of `stC7b`: the shared region `c`, open by worker 42, with
root `{a: "foo"}`. -/
def rC7 : Reg := (stC7b.find 0).getD r0closed

theorem c7_merge_detach_roundtrip_witness :
    stC7b.find 0 = some rC7 ∧
    ((do
      let (d, st1) ← detach_all stC7b (5 + 4) 42 0 (some "d")
      merge st1 (5 + 4) 42 0 d) =
        .ok (.vwrapped 0 (.vobj "Root" (some stC7b.counter)
          [("a", PVal.vstr "foo")]),
          mergeSt stC7b 0 [("a", PVal.vstr "foo")] "d") ∧
    ∀ a v, getField [("a", PVal.vstr "foo")] a = some v →
      regionGetattr (mergeSt stC7b 0 [("a", PVal.vstr "foo")] "d") (5 + 4) 42 0
        (randomWord 8) =
        .ok (.vwrapped 0 (.vobj "Root" (some stC7b.counter)
          [("a", PVal.vstr "foo")]),
          readSt stC7b 0 [("a", PVal.vstr "foo")] "d") ∧
      rioGetattr (readSt stC7b 0 [("a", PVal.vstr "foo")] "d") (5 + 4) 42
        (.vwrapped 0 (.vobj "Root" (some stC7b.counter)
          [("a", PVal.vstr "foo")])) a =
        .ok (v, .vwrapped 0 (.vobj "Root" (some stC7b.counter)
          [("a", PVal.vstr "foo")]),
          readSt stC7b 0 [("a", PVal.vstr "foo")] "d")) :=
  ⟨rfl, c7_merge_detach_roundtrip_preserves_attrs_under_fresh_name stC7b 5 42 0 rC7
    [("a", PVal.vstr "foo")] "d" rfl rfl rfl rfl rfl rfl rfl rfl rfl rfl
    (by decide) (by decide)⟩

/-- Region 0 of the C2 witness state: open by worker 42, free, private. -/
def rC2w0 : Reg :=
  { name := "w0", sharedF := false, openBy := some 42, parentF := none,
    childrenF := [], aliasF := none, lockInit := false, lastReq := none,
    root := freshRoot 0 }

/-- Region 1 of the C2 witness state: closed, free, private. -/
def rC2w1 : Reg :=
  { name := "w1", sharedF := false, openBy := none, parentF := none,
    childrenF := [], aliasF := none, lockInit := false, lastReq := none,
    root := freshRoot 1 }

/-- The C2 witness state: two fresh regions, region 0 held open. -/
def stC2w : St :=
  { regs := [(.pint 0, rC2w0), (.pint 1, rC2w1)], aliases := [], counter := 2 }

/-- **C2** witness: assigning a fresh free private region r1 into open r0
succeeds and attaches r1 as a child (`can_assign` accepts because r1 is
free and `root_region` differs). -/
theorem c2_region_assignment_cases_witness :
    ∃ st', regionSetattr stC2w 9 42 0 "f" (.vregion 1) = .ok st' := by
  obtain ⟨_, _, _, hiff⟩ := c2_region_assignment_cases stC2w 7 42 0 1 rC2w0 "f" [] true
    rfl rfl rfl rfl rfl rfl
  exact hiff.mpr ⟨rfl, rfl⟩

end Pyrona
